import Mathlib

/-!
# go-mq: error taxonomy, name validation, deadlines and the queue-handle lifecycle

A shallow embedding of the decision logic of `github.com/bobcatalyst/go-mq`
(packages `internal/sys`, `internal/deadline` and `posixmq`) together with
theorems about it.

Conventions of the embedding:

* a Go `string` is a list of bytes;
* a Go `error` is `Option GoError`, `none` being the nil error;
* a `unix.Errno` is a natural number (the code);
* the kernel is a response function together with the trace of the calls
  issued so far; every function that may enter the kernel takes and returns
  the `World`.
-/

set_option autoImplicit false
set_option linter.dupNamespace false

/-! ## Bytes and strings -/

/-- One byte of a Go string. -/
abbrev Byte := Fin 256

/-- The byte of the character '/'. -/
def slash : Byte := 47

/-! ## Error codes (golang.org/x/sys/unix, linux) -/

namespace unix

def ENOENT : Nat := 2
def EINTR : Nat := 4
def EBADF : Nat := 9
def EAGAIN : Nat := 11
def ENOMEM : Nat := 12
def EACCES : Nat := 13
def EBUSY : Nat := 16
def EEXIST : Nat := 17
def EINVAL : Nat := 22
def ENFILE : Nat := 23
def EMFILE : Nat := 24
def ENOSPC : Nat := 28
def ERANGE : Nat := 34
def ENAMETOOLONG : Nat := 36
def EMSGSIZE : Nat := 90
def ETIMEDOUT : Nat := 110
/-- On linux `EWOULDBLOCK` is the same code as `EAGAIN`. -/
def EWOULDBLOCK : Nat := 11

/-- Method `Timeout` of `unix.Errno` (package syscall). -/
def Errno.Timeout (e : Nat) : Bool :=
  e == EAGAIN || e == EWOULDBLOCK || e == ETIMEDOUT

/-- Method `Temporary` of `unix.Errno` (package syscall). -/
def Errno.Temporary (e : Nat) : Bool :=
  e == EINTR || e == EMFILE || e == ENFILE || Errno.Timeout e

end unix

/-! ## Package internal/sys: error values -/

namespace sys

/-- A value of a type implementing the interface `sys.Value`, seen through
its method set: its Go type, `Errno()`, `Error()` and the unexported
`errno()` that the embedded `Err[T]` provides, which is `Errno()` of the zero
value of the type parameter `T`. -/
structure Value where
  typeName : String
  Errno : Nat
  Error : String
  errno : Nat
deriving DecidableEq, Repr

/-- Method `Unwrap` of `Err[T]`, promoted to every error kind: the code
reported by `errno()`. -/
def Value.Unwrap (v : Value) : Nat := v.errno

/-- The wrapper `sys.Errno` around a registered error value. -/
structure Errno where
  errno : Value
deriving DecidableEq, Repr

def Errno.Unwrap (e : Errno) : Value := e.errno
def Errno.Temporary (e : Errno) : Bool := unix.Errno.Temporary e.errno.Errno
def Errno.Timeout (e : Errno) : Bool := unix.Errno.Timeout e.errno.Errno
def Errno.Error (e : Errno) : String := e.errno.Error

end sys

/-! ## Go errors -/

/-- The dynamic values an `error` takes in this library. -/
inductive GoError where
  /-- A raw `unix.Errno`. -/
  | errno (code : Nat)
  /-- An error kind such as `ErrNameInvalid{}`. -/
  | value (v : sys.Value)
  /-- The wrapper `sys.Errno{errno: v}`. -/
  | typed (e : sys.Errno)
  /-- The result of `fmt.Errorf` with one `%w` verb: message and wrapped error. -/
  | wrapError (msg : String) (err : GoError)
  /-- The result of `fmt.Errorf` without `%w`. -/
  | errorString (msg : String)
  /-- The result of `errors.Join` when exactly one argument is non-nil. -/
  | join1 (e : GoError)
  /-- The result of `errors.Join` when two arguments are non-nil. -/
  | join2 (e₁ e₂ : GoError)
deriving DecidableEq, Repr

namespace GoError

/-- The single-error `Unwrap() error` method, where the dynamic type has one. -/
def Unwrap : GoError → Option GoError
  | errno _ => none
  | value v => some (errno v.Unwrap)
  | typed e => some (value e.Unwrap)
  | wrapError _ err => some err
  | errorString _ => none
  | join1 _ => none
  | join2 _ _ => none

/-- The `Unwrap() []error` method of the error built by `errors.Join`. -/
def joined : GoError → List GoError
  | join1 e => [e]
  | join2 e₁ e₂ => [e₁, e₂]
  | _ => []

end GoError

/-- Function `errors.Is`: walks the tree of `Unwrap` links comparing with the
target. (`unix.Errno.Is` only matches the sentinel errors of package
`oserror`, none of which is a target here.) -/
def errorsIs (err target : GoError) : Bool :=
  err == target ||
  match err with
  | .errno _ => false
  | .value v => GoError.errno v.Unwrap == target
  | .typed e => GoError.value e.Unwrap == target || GoError.errno e.Unwrap.Unwrap == target
  | .wrapError _ inner => errorsIs inner target
  | .errorString _ => false
  | .join1 e => errorsIs e target
  | .join2 e₁ e₂ => errorsIs e₁ target || errorsIs e₂ target

/-- Function `errors.Join` on two arguments: nil when both are nil, otherwise an
error wrapping the non-nil ones in order. -/
def errorsJoin (a b : Option GoError) : Option GoError :=
  match a, b with
  | none, none => none
  | some e, none => some (.join1 e)
  | none, some e => some (.join1 e)
  | some e₁, some e₂ => some (.join2 e₁ e₂)

/-- Function `fmt.Errorf(format, v)` where `format` is `%w` followed by `rest` and
`v` is an error kind. -/
def fmtErrorfW (rest : String) (v : sys.Value) : GoError :=
  .wrapError (v.Error ++ rest) (.value v)

/-! ## Package posixmq: name validation (name.go) -/

namespace posixmq

def ErrNameContainedMultipleSlash : sys.Value :=
  ⟨"ErrNameContainedMultipleSlash", unix.EACCES,
    "name contained more than one slash", unix.EACCES⟩

def ErrNameEmpty : sys.Value :=
  ⟨"ErrNameEmpty", unix.ENOENT,
    "name was just '/' followed by no other characters", unix.ENOENT⟩

def ErrNameInvalid : sys.Value :=
  ⟨"ErrNameInvalid", unix.EINVAL,
    "name doesn't follow the correct format", unix.EINVAL⟩

/-- ValidateName checks if a name is valid and returns it without the initial
slash. -/
def ValidateName (name : List Byte) : List Byte × Option GoError :=
  if name.length = 0 then
    ([], some (fmtErrorfW ", name must not be empty" ErrNameInvalid))
  else if name.head? ≠ some slash then
    ([], some (fmtErrorfW ", name must start with '/'" ErrNameInvalid))
  else if name.length = 1 then
    ([], some (.value ErrNameEmpty))
  else if slash ∈ name.drop 1 then
    ([], some (.value ErrNameContainedMultipleSlash))
  else
    (name.drop 1, none)

end posixmq

/-! ## Machine words -/

/-- Conversion `uintptr(x)` of an `int` on a 64-bit platform. -/
def toUintptr (x : Int) : Nat := (x % 2 ^ 64).toNat

/-- Conversion `int(x)` of a `uintptr` on a 64-bit platform. -/
def toInt (x : Nat) : Int :=
  if x % 2 ^ 64 < 2 ^ 63 then ((x % 2 ^ 64 : Nat) : Int) else ((x % 2 ^ 64 : Nat) : Int) - 2 ^ 64

/-- Operator `&` on `int`. -/
def intAnd (a b : Int) : Int := toInt (toUintptr a &&& toUintptr b)

/-- Operator `|` on `int`. -/
def intOr (a b : Int) : Int := toInt (toUintptr a ||| toUintptr b)

/-! ## Panics -/

/-- The ways a call of this library can panic. -/
inductive Panic where
  /-- The statement `panic(err)`. -/
  | error (e : GoError)
  /-- A call of a nil function value. -/
  | nilFunc
  /-- An index expression out of range, such as `&buf[0]` on an empty slice. -/
  | indexOutOfRange
  /-- A slice expression whose bound is negative or beyond the capacity. -/
  | sliceBounds
deriving DecidableEq, Repr

/-! ## Queue attributes (attributes.go) -/

namespace posixmq

/-- The kernel's `mq_attr` record. -/
structure Attributes where
  Flags : Int
  MaxQueueSize : Int
  MaxMessageSize : Int
  NumCurrMessages : Int
deriving DecidableEq, Repr

end posixmq

/-! ## The kernel -/

/-- One word-sized argument of a system call: a plain word (a nil pointer
is the word 0), or the address of an object, modelled by the object. -/
inductive Arg where
  | word (n : Nat)
  /-- Address of the first byte of a NUL-terminated name. -/
  | namePtr (bytes : List Byte)
  /-- Address of an attributes record. -/
  | attrPtr (a : posixmq.Attributes)
  /-- Address of the first byte of a buffer. -/
  | bufPtr (buf : List Byte)
  /-- Address of a `uint` holding a priority. -/
  | prioPtr (p : Nat)
  /-- Address of a `unix.Timespec` with the given seconds and nanoseconds. -/
  | timespecPtr (sec nsec : Int)
  /-- Address of a notification record with the given mode and signal. -/
  | notifyPtr (notify signo : Int)
deriving DecidableEq, Repr

/-- One entry into the kernel through `unix.Syscall` (three arguments) or
`unix.Syscall6` (six arguments). -/
structure SysCall where
  trap : Nat
  args : List Arg
deriving DecidableEq, Repr

/-- What the kernel returns: `r1`, `r2` and the error code. -/
structure SysRet where
  r1 : Nat
  r2 : Nat
  en : Nat
deriving DecidableEq, Repr

/-- The environment of the library: the kernel (its answer to a call may
depend on the calls before it), the calls issued so far (oldest first), the
file system as seen by `os.ReadFile` with the paths read so far, and the
standard-library parser `strconv.Atoi(strings.TrimSpace(string(b)))`.
What the kernel stores in user memory during a call is given by `attrOut`
(the record behind the old-attributes pointer of the get/set-attributes
call) and `msgOut` (the message bytes and the priority behind the pointers
of the receive call). `strerror` is the message table of `unix.Errno`. -/
structure World where
  kernel : List SysCall → SysCall → SysRet
  trace : List SysCall
  readFile : String → List Byte × Option GoError
  reads : List String
  atoiTrimSpace : List Byte → Int × Option GoError
  attrOut : List SysCall → SysCall → posixmq.Attributes := fun _ _ => ⟨0, 0, 0, 0⟩
  msgOut : List SysCall → SysCall → List Byte × Nat := fun _ _ => ([], 0)
  strerror : Nat → String := fun e => "errno " ++ toString e

namespace unix

/-- Function `unix.Syscall`. -/
def Syscall (w : World) (trap : Nat) (a1 a2 a3 : Arg) : SysRet × World :=
  let c : SysCall := ⟨trap, [a1, a2, a3]⟩
  (w.kernel w.trace c, { w with trace := w.trace ++ [c] })

/-- Function `unix.Syscall6`. -/
def Syscall6 (w : World) (trap : Nat) (a1 a2 a3 a4 a5 a6 : Arg) : SysRet × World :=
  let c : SysCall := ⟨trap, [a1, a2, a3, a4, a5, a6]⟩
  (w.kernel w.trace c, { w with trace := w.trace ++ [c] })

/-- Function `unix.BytePtrFromString`: fails with `EINVAL` when the string holds a
NUL byte, otherwise the address of a NUL-terminated copy. -/
def BytePtrFromString (s : List Byte) : Option (List Byte) × Option GoError :=
  if (0 : Byte) ∈ s then (none, some (.errno EINVAL)) else (some (s ++ [0]), none)

def SYS_CLOSE : Nat := 3
def SYS_MQ_OPEN : Nat := 240
def SYS_MQ_UNLINK : Nat := 241
def SYS_MQ_TIMEDSEND : Nat := 242
def SYS_MQ_TIMEDRECEIVE : Nat := 243
def SYS_MQ_NOTIFY : Nat := 244
def SYS_MQ_GETSETATTR : Nat := 245

def O_RDONLY : Int := 0x0
def O_WRONLY : Int := 0x1
def O_RDWR : Int := 0x2
def O_CREAT : Int := 0x40
def O_EXCL : Int := 0x80
def O_NONBLOCK : Int := 0x800
def O_CLOEXEC : Int := 0x80000

end unix

/-! ## Package internal/sys: the taxonomy (errno.go) -/

namespace sys

/-- The type `Errnos`, a Go map from codes to values: a list of bindings
with at most one binding per key. -/
abbrev Errnos := List (Nat × Value)

/-- Map index expression `m[k]` in its two-value form. -/
def Errnos.lookup : Errnos → Nat → Option Value
  | [], _ => none
  | (k', v) :: m, k => if k' = k then some v else Errnos.lookup m k

/-- Map assignment `m[k] = v`. -/
def Errnos.insert : Errnos → Nat → Value → Errnos
  | [], k, v => [(k, v)]
  | (k', v') :: m, k, v => if k' = k then (k, v) :: m else (k', v') :: Errnos.insert m k v

/-- The loop of `NewErrnos`, started from the map `m`. -/
def NewErrnos.loop : Errnos → List Value → Except Panic Errnos
  | m, [] => .ok m
  | m, e :: errs =>
    let en := e.Errno
    if (Errnos.lookup m en).isSome then
      .error (.error (.errorString ("duplicate errno " ++ toString en)))
    else
      NewErrnos.loop (Errnos.insert m en e) errs

/-- NewErrnos builds the map from codes to values, panicking on a code seen
twice. -/
def NewErrnos (errs : List Value) : Except Panic Errnos :=
  NewErrnos.loop [] errs

/-- Get retrieves an error associated with a given unix.Errno. -/
def Errnos.Get (e : Errnos) (errno : Nat) : Option GoError :=
  match Errnos.lookup e errno with
  | some err => some (.typed { errno := err })
  | none =>
    if errno = 0 then
      none
    else
      some (.errno errno)

/-! ## Package internal/sys: the gateway (syscall.go) -/

/-- The type `syscall`: the syscall number, parameter count, and error
mappings. -/
structure syscall where
  trap : Nat
  params : Int
  errs : Errnos
deriving DecidableEq, Repr

/-- New creates a new syscall instance; it panics when `NewErrnos` does. -/
def New (trap : Nat) (params : Int) (errnos : List Value) : Except Panic syscall :=
  match NewErrnos errnos with
  | .ok m => .ok { trap := trap, params := params, errs := m }
  | .error p => .error p

/-- Helper `exactlyLen`: a fresh slice of the given length holding a copy of
the input, zero-filled beyond it. -/
def exactlyLen (inp : List Arg) (length : Nat) : List Arg :=
  (inp ++ List.replicate (length - inp.length) (Arg.word 0)).take length

/-- CallValues executes the system call and returns two return values and an
error. -/
def syscall.CallValues (s : syscall) (args : List Arg) (w : World) :
    (Int × Int × Option GoError) × World :=
  if (args.length : Int) ≠ s.params then
    ((0, 0, some (.errorString
      ("got " ++ toString args.length ++ " params, expected " ++ toString s.params))), w)
  else if args.length ≤ 3 then
    let args := exactlyLen args 3
    let (r, w) := unix.Syscall w s.trap (args.getD 0 (.word 0)) (args.getD 1 (.word 0))
      (args.getD 2 (.word 0))
    ((toInt r.r1, toInt r.r2, s.errs.Get r.en), w)
  else
    let args := exactlyLen args 6
    let (r, w) := unix.Syscall6 w s.trap (args.getD 0 (.word 0)) (args.getD 1 (.word 0))
      (args.getD 2 (.word 0)) (args.getD 3 (.word 0)) (args.getD 4 (.word 0))
      (args.getD 5 (.word 0))
    ((toInt r.r1, toInt r.r2, s.errs.Get r.en), w)

/-- CallValue executes the system call and returns a single return value and
an error. -/
def syscall.CallValue (s : syscall) (args : List Arg) (w : World) :
    (Int × Option GoError) × World :=
  let ((r, _, err), w) := s.CallValues args w
  ((r, err), w)

/-- Call executes the system call and returns an error if one occurs. -/
def syscall.Call (s : syscall) (args : List Arg) (w : World) : Option GoError × World :=
  let ((_, err), w) := s.CallValue args w
  (err, w)

/-- A package-level variable initialised with `sys.New`: package
initialisation has to run without panic for the program to start. -/
def mustNew (r : Except Panic syscall) (h : r.toBool = true) : syscall :=
  match r, h with
  | .ok s, _ => s

end sys

/-! ## Time and deadlines (internal/deadline/deadline.go) -/

namespace time

/-- A `time.Time`: seconds since January 1, year 1 00:00:00 UTC and the
nanoseconds within the second. -/
structure Time where
  sec : Int
  nsec : Int
deriving DecidableEq, Repr

/-- The zero value of `time.Time`. -/
def Time.zero : Time := ⟨0, 0⟩

def Time.IsZero (t : Time) : Bool := t.sec == 0 && t.nsec == 0

/-- Seconds since January 1, 1970 UTC. -/
def Time.Unix (t : Time) : Int := t.sec - 62135596800

def Time.Nanosecond (t : Time) : Int := t.nsec

end time

namespace unix

/-- The type `unix.Timespec` (linux/amd64: both fields are `int64`). -/
structure Timespec where
  Sec : Int
  Nsec : Int
deriving DecidableEq, Repr

def setTimespec (sec nsec : Int) : Timespec := { Sec := sec, Nsec := nsec }

/-- Function `unix.TimeToTimespec`. -/
def TimeToTimespec (t : time.Time) : Timespec × Option GoError :=
  let sec := t.Unix
  let nsec := t.Nanosecond
  let ts := setTimespec sec nsec
  if ts.Sec ≠ sec then
    ({ Sec := 0, Nsec := 0 }, some (.errno ERANGE))
  else
    (ts, none)

end unix

namespace deadline

/-- The implementations of the interface `Deadline`: the two of this package
and any other one (a `context.Context`, a `*testing.T`), given by what its
method reports. -/
inductive Deadline where
  | NoDeadline
  | TimeDeadline (td : time.Time)
  | other (t : time.Time) (ok : Bool)
deriving DecidableEq, Repr

/-- Method `Deadline()` of the interface. -/
def Deadline.Deadline : Deadline → time.Time × Bool
  | .NoDeadline => (time.Time.zero, false)
  | .TimeDeadline td => (td, !td.IsZero)
  | .other t ok => (t, ok)

/-- ToTimespec converts a Deadline to a `unix.Timespec`; the first component
is the pointer, `none` being nil. -/
def ToTimespec (dl : Deadline) : Option unix.Timespec × Option GoError :=
  let (t, ok) := dl.Deadline
  if ok && !t.IsZero then
    let (ts, err) := unix.TimeToTimespec t
    (some ts, err)
  else
    (none, none)

end deadline

/-! ## Package posixmq: error kinds -/

namespace posixmq

/-! Error kinds of error.go -/

def ErrBadFileDescriptor : sys.Value :=
  ⟨"ErrBadFileDescriptor", unix.EBADF,
    "the message queue descriptor specified is invalid", unix.EBADF⟩

def ErrNameTooLong : sys.Value :=
  ⟨"ErrNameTooLong", unix.ENAMETOOLONG,
    "name was too long", unix.ENAMETOOLONG⟩

def ErrNoMemory : sys.Value :=
  ⟨"ErrNoMemory", unix.ENOMEM,
    "insufficient memory", unix.ENOMEM⟩

/-! Error kinds of open.go -/

def ErrOpenBadAccess : sys.Value :=
  ⟨"ErrOpenBadAccess", unix.EACCES,
    "the queue exists, but the caller does not have permission to open it in the specified mode", unix.EACCES⟩

def ErrOpenExists : sys.Value :=
  ⟨"ErrOpenExists", unix.EEXIST,
    "both O_CREAT and O_EXCL were specified in oflag, but a queue with this name already exists", unix.EEXIST⟩

def ErrOpenInvalid : sys.Value :=
  ⟨"ErrOpenInvalid", unix.EINVAL,
    "create flag was specified and attr->mq_maxmsg or attr->mq_msqsize were invalid", unix.EINVAL⟩

def ErrOpenProcessLimitReached : sys.Value :=
  ⟨"ErrOpenProcessLimitReached", unix.EMFILE,
    "the per-process limit on the number of open file and message queue descriptors has been reached", unix.EMFILE⟩

def ErrOpenSystemLimitReached : sys.Value :=
  ⟨"ErrOpenSystemLimitReached", unix.ENFILE,
    "the system-wide limit on the total number of open files and message queues has been reached", unix.ENFILE⟩

def ErrOpenNoEntry : sys.Value :=
  ⟨"ErrOpenNoEntry", unix.ENOENT,
    "the O_CREAT flag was not specified in oflag, and no queue with this name exists", unix.ENOENT⟩

def ErrOpenNoSpace : sys.Value :=
  ⟨"ErrOpenNoSpace", unix.ENOSPC,
    "insufficient space for the creation of a new message queue", unix.ENOSPC⟩

/-! Error kinds of unlink.go -/

def ErrUnlinkNoPermission : sys.Value :=
  ⟨"ErrUnlinkNoPermission", unix.EACCES,
    "the caller does not have permission to unlink this message queue", unix.EACCES⟩

def ErrUnlinkNoMessageQueue : sys.Value :=
  ⟨"ErrUnlinkNoMessageQueue", unix.ENOENT,
    "there is no message queue with the given name", unix.ENOENT⟩

/-! Error kinds of sendRecv.go -/

def ErrSendRecvTimeout : sys.Value :=
  ⟨"ErrSendRecvTimeout", unix.ETIMEDOUT,
    "the call timed out before a message could be transferred", unix.ETIMEDOUT⟩

def ErrSendRecvInterrupted : sys.Value :=
  ⟨"ErrSendRecvInterrupted", unix.EINTR,
    "the call was interrupted by a signal handler", unix.EINTR⟩

def ErrSendRecvInvalidTimeout : sys.Value :=
  ⟨"ErrSendRecvInvalidTimeout", unix.EINVAL,
    "the call would have blocked and abs_timeout was invalid", unix.EINVAL⟩

def ErrSendFullQueue : sys.Value :=
  ⟨"ErrSendFullQueue", unix.EAGAIN,
    "the queue was full and the O_NONBLOCK flag was set for the message queue", unix.EAGAIN⟩

def ErrRecvEmptyQueue : sys.Value :=
  ⟨"ErrRecvEmptyQueue", unix.EAGAIN,
    "the queue was empty and the O_NONBLOCK flag was set for the message queue", unix.EAGAIN⟩

def ErrSendInvalidFileDescriptor : sys.Value :=
  ⟨"ErrSendInvalidFileDescriptor", unix.EBADF,
    "the file descriptor was invalid or not opened for writing", unix.EBADF⟩

def ErrReceiveInvalidFileDescriptor : sys.Value :=
  ⟨"ErrReceiveInvalidFileDescriptor", unix.EBADF,
    "the file descriptor was invalid or not opened for reading", unix.EBADF⟩

def ErrSendInvalidMessageSize : sys.Value :=
  ⟨"ErrSendInvalidMessageSize", unix.EMSGSIZE,
    "msg_len was greater than the mq_msgsize attribute of the message queue", unix.EMSGSIZE⟩

def ErrRecvInvalidMessageSize : sys.Value :=
  ⟨"ErrRecvInvalidMessageSize", unix.EMSGSIZE,
    "msg_len was less than the mq_msgsize attribute of the message queue", unix.EMSGSIZE⟩

/-! Error kinds of notify.go -/

def ErrNotifyBusy : sys.Value :=
  ⟨"ErrNotifyBusy", unix.EBUSY,
    "another process has already registered to receive notification for this message queue", unix.EBUSY⟩

def ErrNotifyInvalid : sys.Value :=
  ⟨"ErrNotifyInvalid", unix.EINVAL,
    "sevp->sigev_notify is not one of the permitted values or sevp->sigev_notify is SIGEV_SIGNAL and sevp->sigev_signo is not a valid signal number", unix.EINVAL⟩

/-! Error kinds of attributes.go -/

def ErrGetSetAttrInvalidFlags : sys.Value :=
  ⟨"ErrGetSetAttrInvalidFlags", unix.EINVAL,
    "newattr->mq_flags contained set bits other than O_NONBLOCK", unix.EINVAL⟩

/-- Every error kind declared by package posixmq. -/
def errorKinds : List sys.Value :=
  [ErrBadFileDescriptor, ErrNameTooLong, ErrNoMemory,
   ErrNameContainedMultipleSlash, ErrNameEmpty, ErrNameInvalid,
   ErrOpenBadAccess, ErrOpenExists, ErrOpenInvalid,
   ErrOpenProcessLimitReached, ErrOpenSystemLimitReached, ErrOpenNoEntry,
   ErrOpenNoSpace, ErrUnlinkNoPermission, ErrUnlinkNoMessageQueue,
   ErrSendRecvTimeout, ErrSendRecvInterrupted, ErrSendRecvInvalidTimeout,
   ErrSendFullQueue, ErrRecvEmptyQueue, ErrSendInvalidFileDescriptor,
   ErrReceiveInvalidFileDescriptor, ErrSendInvalidMessageSize, ErrRecvInvalidMessageSize,
   ErrNotifyBusy, ErrNotifyInvalid, ErrGetSetAttrInvalidFlags]

/-! ## Package posixmq: open, close, unlink -/

def OpenReadOnly : Int := unix.O_RDONLY
def OpenWriteOnly : Int := unix.O_WRONLY
def OpenReadWrite : Int := unix.O_RDWR
def OpenCloseOnExec : Int := unix.O_CLOEXEC
def OpenCreate : Int := unix.O_CREAT
def OpenExclusive : Int := unix.O_EXCL
def OpenNonBlocking : Int := unix.O_NONBLOCK

/-- namePtrFromString converts a queue name to a pointer for system calls,
validating it first. -/
def namePtrFromString (name : List Byte) : Option (List Byte) × Option GoError :=
  match ValidateName name with
  | (_, some err) => (none, some err)
  | (name, none) => unix.BytePtrFromString name

/-- The word passed for a `*byte`. -/
def namePtrArg : Option (List Byte) → Arg
  | none => .word 0
  | some b => .namePtr b

/-- The word passed for a `*Attributes`. -/
def attrPtrArg : Option Attributes → Arg
  | none => .word 0
  | some a => .attrPtr a

def sysOpen : sys.syscall :=
  sys.mustNew (sys.New unix.SYS_MQ_OPEN 4
    [ErrOpenBadAccess, ErrOpenExists, ErrOpenInvalid, ErrOpenProcessLimitReached,
     ErrNameTooLong, ErrOpenSystemLimitReached, ErrOpenNoEntry, ErrNoMemory,
     ErrOpenNoSpace]) (by decide)

/-- Function rawOpen performs the low-level syscall to open a message queue. -/
def rawOpen (name : Option (List Byte)) (oflag mode : Int) (attr : Option Attributes)
    (w : World) : (Int × Option GoError) × World :=
  sysOpen.CallValue
    [namePtrArg name, .word (toUintptr oflag), .word (toUintptr mode), attrPtrArg attr] w

/-- RawOpen validates the name and opens a message queue. -/
def RawOpen (name : List Byte) (oflag mode : Int) (attr : Option Attributes) (w : World) :
    (Int × Option GoError) × World :=
  match namePtrFromString name with
  | (_, some err) => ((0, some err), w)
  | (bn, none) => rawOpen bn oflag mode attr w

def sysUnlink : sys.syscall :=
  sys.mustNew (sys.New unix.SYS_MQ_UNLINK 1
    [ErrUnlinkNoPermission, ErrNameTooLong, ErrUnlinkNoMessageQueue]) (by decide)

/-- Function rawUnlink performs the low-level unlink syscall. -/
def rawUnlink (bn : Option (List Byte)) (w : World) : Option GoError × World :=
  sysUnlink.Call [namePtrArg bn] w

/-- RawUnlink removes the message queue with the specified name from the
system. -/
def RawUnlink (name : List Byte) (w : World) : Option GoError × World :=
  match namePtrFromString name with
  | (_, some err) => (some err, w)
  | (bn, none) => rawUnlink bn w

def sysClose : sys.syscall :=
  sys.mustNew (sys.New unix.SYS_CLOSE 1 [ErrBadFileDescriptor]) (by decide)

/-- RawClose closes a message queue descriptor. -/
def RawClose (mqd : Int) (w : World) : Option GoError × World :=
  sysClose.Call [.word (toUintptr mqd)] w

end posixmq

/-! ## Package posixmq: system configuration (attributes.go) -/

namespace posixmq

/-- Function sizeFromFile reads one integer under `/proc/sys/fs/mqueue`. -/
def sizeFromFile (name : String) (w : World) : (Int × Option GoError) × World :=
  let path := "/proc/sys/fs/mqueue/" ++ name
  let w' : World := { w with reads := w.reads ++ [path] }
  match w.readFile path with
  | (_, some err) => ((0, some err), w')
  | (b, none) => (w.atoiTrimSpace b, w')

def DefaultMessageSize (w : World) : (Int × Option GoError) × World :=
  sizeFromFile "msqsize_default" w

def DefaultQueueSize (w : World) : (Int × Option GoError) × World :=
  sizeFromFile "msq_default" w

/-! ## Package posixmq: the queue handle (mq.go) -/

/-- The function value built by `sync.OnceValue`: not yet called, or called
with its result cached. -/
inductive OnceValue where
  | fresh
  | done (r : Option GoError)
deriving DecidableEq, Repr

/-- MQ allows for structured usage of POSIX message queues. Field `close` is
`none` while the function value is nil, field `unlink` is `false` while it is
nil and otherwise stands for the closure
`func() error { return rawUnlink(mq.bname) }`. -/
structure MQ where
  name : List Byte
  bname : Option (List Byte)
  attr : Option Attributes
  mode : Int
  oflag : Int
  mqd : Int
  buf : List Byte
  close : Option OnceValue
  unlink : Bool
deriving DecidableEq, Repr

/-- MQOption represents options that can be applied when creating or opening
a message queue. -/
inductive MQOption where
  | optionOflag (oflag : Int)
  | optionCreateArgs (mode maxMessageSize maxQueueSize : Int)
deriving DecidableEq, Repr

/-- OptionCreateArgs supplies arguments for creating a queue with OpenCreate. -/
def OptionCreateArgs (mode maxMessageSize maxQueueSize : Int) : MQOption :=
  .optionCreateArgs mode maxMessageSize maxQueueSize

/-- OptionOflag sets the oflag parameter for opening the queue. -/
def OptionOflag (oflag : Int) : MQOption := .optionOflag oflag

def MQOption.applyOption (opt : MQOption) (mq : MQ) : MQ :=
  match opt with
  | .optionOflag oflag => { mq with oflag := oflag }
  | .optionCreateArgs mode maxMessageSize maxQueueSize =>
    { mq with
      mode := mode
      attr := some { Flags := 0, MaxQueueSize := maxQueueSize,
                     MaxMessageSize := maxMessageSize, NumCurrMessages := 0 } }

def MQ.applyAll (mq : MQ) (opts : List MQOption) (w : World) : (MQ × Option GoError) × World :=
  let mq := opts.foldl (fun mq opt => opt.applyOption mq) mq
  let mq :=
    if mq.attr ≠ none ∧ intAnd mq.oflag OpenCreate ≠ OpenCreate then
      { mq with oflag := intOr mq.oflag OpenCreate }
    else mq
  if intAnd mq.oflag OpenCreate = OpenCreate then
    let mq := if mq.mode = 0 then { mq with mode := 0o644 } else mq
    if mq.attr = none then
      let ((defQueueSize, qsErr), w) := DefaultQueueSize w
      let ((defMsqSize, msErr), w) := DefaultMessageSize w
      match errorsJoin qsErr msErr with
      | some err => ((mq, some err), w)
      | none =>
        (({ mq with attr := some { Flags := 0, MaxQueueSize := defQueueSize,
                                   MaxMessageSize := defMsqSize, NumCurrMessages := 0 } },
          none), w)
    else
      ((mq, none), w)
  else
    (({ mq with mode := 0, attr := none }, none), w)

/-- Method open initializes the queue and sets up close and unlink operations. -/
def MQ.open (mq : MQ) (w : World) : (MQ × Option GoError) × World :=
  match rawOpen mq.bname mq.oflag mq.mode mq.attr w with
  | ((mqd, some err), w) => (({ mq with mqd := mqd }, some err), w)
  | ((mqd, none), w) =>
    (({ mq with mqd := mqd, unlink := true, close := some .fresh }, none), w)

/-- New opens a message queue. -/
def New (name : List Byte) (opts : List MQOption) (w : World) :
    (Option MQ × Option GoError) × World :=
  let mq : MQ := { name := name, bname := none, attr := none, mode := 0, oflag := 0,
                   mqd := 0, buf := [], close := none, unlink := false }
  match namePtrFromString name with
  | (_, some err) => ((none, some err), w)
  | (bname, none) =>
    let mq := { mq with bname := bname }
    match mq.applyAll opts w with
    | ((_, some err), w) => ((none, some err), w)
    | ((mq, none), w) =>
      match mq.open w with
      | ((_, some err), w) => ((none, some err), w)
      | ((mq, none), w) => ((some mq, none), w)

/-- Close closes the message queue. -/
def MQ.Close (mq : MQ) (w : World) : Except Panic ((Option GoError × MQ) × World) :=
  match mq.close with
  | none => .error .nilFunc
  | some .fresh =>
    let (err, w) := RawClose mq.mqd w
    .ok ((err, { mq with close := some (.done err) }), w)
  | some (.done r) => .ok ((r, mq), w)

/-- Unlink closes and unlinks the queue. -/
def MQ.Unlink (mq : MQ) (w : World) : Except Panic ((Option GoError × MQ) × World) :=
  match mq.Close w with
  | .error p => .error p
  | .ok ((err, mq), w) =>
    if mq.unlink then
      let (uerr, w) := rawUnlink mq.bname w
      .ok ((errorsJoin err uerr, mq), w)
    else
      .error .nilFunc

/-- The outcome of `n` successive calls of `Close`: the results in order,
the handle and the world afterwards. -/
def MQ.closeTimes : Nat → MQ → World → Except Panic ((List (Option GoError) × MQ) × World)
  | 0, mq, w => .ok (([], mq), w)
  | n + 1, mq, w =>
    match mq.Close w with
    | .error p => .error p
    | .ok ((r, mq), w) =>
      match MQ.closeTimes n mq w with
      | .error p => .error p
      | .ok ((rs, mq), w) => .ok ((r :: rs, mq), w)

/-- The outcome of `n` successive calls of `Unlink`. -/
def MQ.unlinkTimes : Nat → MQ → World → Except Panic ((List (Option GoError) × MQ) × World)
  | 0, mq, w => .ok (([], mq), w)
  | n + 1, mq, w =>
    match mq.Unlink w with
    | .error p => .error p
    | .ok ((r, mq), w) =>
      match MQ.unlinkTimes n mq w with
      | .error p => .error p
      | .ok ((rs, mq), w) => .ok ((r :: rs, mq), w)

end posixmq

/-! ## Error messages -/

/-- Method `Error()` of an error, given the message table of `unix.Errno`. -/
def GoError.Error (strerror : Nat → String) : GoError → String
  | .errno code => strerror code
  | .value v => v.Error
  | .typed e => e.Error
  | .wrapError msg _ => msg
  | .errorString msg => msg
  | .join1 e => GoError.Error strerror e
  | .join2 e₁ e₂ => GoError.Error strerror e₁ ++ "\n" ++ GoError.Error strerror e₂

/-! ## Package posixmq: attributes, send and receive, notify -/

namespace posixmq

def AttributeNonBlocking : Int := OpenNonBlocking
def AttributeBlocking : Int := 0

def sysGetSetAttr : sys.syscall :=
  sys.mustNew (sys.New unix.SYS_MQ_GETSETATTR 3
    [ErrBadFileDescriptor, ErrGetSetAttrInvalidFlags]) (by decide)

/-- RawGetSetAttributes retrieves or modifies the attributes of a message
queue. The record `attr` starts as the zero value; after the call it holds
what the kernel stored through the old-attributes pointer. -/
def RawGetSetAttributes (mqd : Int) (newAttr : Option Attributes) (w : World) :
    (Attributes × Option GoError) × World :=
  let attr : Attributes := ⟨0, 0, 0, 0⟩
  let args := [.word (toUintptr mqd), attrPtrArg newAttr, .attrPtr attr]
  let (err, w') := sysGetSetAttr.Call args w
  ((w.attrOut w.trace ⟨sysGetSetAttr.trap, sys.exactlyLen args 3⟩, err), w')

def sysSend : sys.syscall :=
  sys.mustNew (sys.New unix.SYS_MQ_TIMEDSEND 5
    [ErrSendRecvTimeout, ErrSendRecvInterrupted, ErrSendRecvInvalidTimeout,
     ErrSendFullQueue, ErrSendInvalidFileDescriptor, ErrSendInvalidMessageSize]) (by decide)

def sysRecv : sys.syscall :=
  sys.mustNew (sys.New unix.SYS_MQ_TIMEDRECEIVE 5
    [ErrSendRecvTimeout, ErrSendRecvInterrupted, ErrSendRecvInvalidTimeout,
     ErrRecvEmptyQueue, ErrReceiveInvalidFileDescriptor, ErrRecvInvalidMessageSize])
    (by decide)

/-- The type parameter `P` of `RawSendReceive`: a `uint` (send) or a `*uint`
(receive), the pointer modelled by the value it points to. -/
inductive Priority where
  | uint (p : Nat)
  | ptr (p : Nat)
deriving DecidableEq, Repr

/-- The word passed for a `*unix.Timespec`. -/
def timespecArg : Option unix.Timespec → Arg
  | none => .word 0
  | some ts => .timespecPtr ts.Sec ts.Nsec

/-- The buffer after the kernel stored a message at its start; the kernel
never writes beyond the length it was given. -/
def storeMessage (buf msg : List Byte) : List Byte :=
  (msg ++ buf.drop msg.length).take buf.length

/-- RawSendReceive sends or receives a message depending on the type of P.
Besides the results it returns the buffer and the priority as they are in
memory afterwards, and the world. -/
def RawSendReceive (mqd : Int) (dl : deadline.Deadline) (buf : List Byte)
    (priority : Priority) (w : World) :
    Except Panic (Int × Option GoError) × (List Byte × Priority) × World :=
  match deadline.ToTimespec dl with
  | (_, some err) => (.ok (0, some err), (buf, priority), w)
  | (t, none) =>
    match priority with
    | .uint p =>
      if buf.length = 0 then (.error .indexOutOfRange, (buf, priority), w)
      else
        let (err, w') := sysSend.Call
          [.word (toUintptr mqd), .bufPtr buf, .word (toUintptr buf.length),
           .word (p % 2 ^ 64), timespecArg t] w
        (.ok (0, err), (buf, priority), w')
    | .ptr p =>
      if buf.length = 0 then (.error .indexOutOfRange, (buf, priority), w)
      else
        let args := [.word (toUintptr mqd), .bufPtr buf, .word (toUintptr buf.length),
           .prioPtr p, timespecArg t]
        let (r, w') := sysRecv.CallValue args w
        let stored := w.msgOut w.trace ⟨sysRecv.trap, sys.exactlyLen args 6⟩
        (.ok r, (storeMessage buf stored.1, .ptr stored.2), w')

/-- Send sends a message to the queue. -/
def MQ.Send (mq : MQ) (dl : deadline.Deadline) (data : List Byte) (priority : Nat)
    (w : World) : Except Panic (Option GoError) × World :=
  match RawSendReceive mq.mqd dl data (.uint priority) w with
  | (.error p, _, w) => (.error p, w)
  | (.ok (_, err), _, w) => (.ok err, w)

/-- GetAttr gets the message queue's attributes. -/
def MQ.GetAttr (mq : MQ) (w : World) : (Attributes × Option GoError) × World :=
  RawGetSetAttributes mq.mqd none w

/-- SetBlocking sets or clears the blocking flag on the message queue. -/
def MQ.SetBlocking (mq : MQ) (blocking : Bool) (w : World) :
    (Attributes × Option GoError) × World :=
  let attr : Attributes := ⟨0, 0, 0, 0⟩
  let attr := if !blocking then { attr with Flags := AttributeNonBlocking } else attr
  RawGetSetAttributes mq.mqd (some attr) w

/-- The last two statements of `Receive`: the receive call on the buffer of
the handle and the slice expression `mq.buf[:size]`, whose bound has to lie
between 0 and the capacity of the buffer. -/
def MQ.receiveCall (mq : MQ) (dl : deadline.Deadline) (w : World) :
    Except Panic (Option (List Byte) × Nat × Option GoError) × MQ × World :=
  match RawSendReceive mq.mqd dl mq.buf (.ptr 0) w with
  | (.error p, _, w) => (.error p, mq, w)
  | (.ok (size, err), (buf, priority), w) =>
    let mq := { mq with buf := buf }
    let priority := match priority with
      | .uint p => p
      | .ptr p => p
    if 0 ≤ size ∧ size ≤ (mq.buf.length : Int) then
      (.ok (some (mq.buf.take size.toNat), priority, err), mq, w)
    else
      (.error .sliceBounds, mq, w)

/-- Receive retrieves a message from the queue. The data is `none` for a nil
slice. The handle and the world are returned also when the call panics. -/
def MQ.Receive (mq : MQ) (dl : deadline.Deadline) (w : World) :
    Except Panic (Option (List Byte) × Nat × Option GoError) × MQ × World :=
  if mq.buf.length = 0 then
    match mq.GetAttr w with
    | ((_, some err), w) =>
      (.ok (none, 0, some (.wrapError
        ("failed to get message buffer size from attributes: " ++ err.Error w.strerror) err)),
       mq, w)
    | ((attr, none), w) =>
      if attr.MaxMessageSize ≤ 0 then
        (.ok (none, 0, some (.errorString
          ("invalid MaxMessageSize of " ++ toString attr.MaxMessageSize))), mq, w)
      else
        MQ.receiveCall { mq with buf := List.replicate attr.MaxMessageSize.toNat 0 } dl w
  else
    MQ.receiveCall mq dl w

/-- Name returns the name of the queue. -/
def MQ.Name (mq : MQ) : List Byte := mq.name

/-- Mode returns the mode used to create the queue. -/
def MQ.Mode (mq : MQ) : Int := mq.mode

/-- Oflag returns the flags used to open the queue. -/
def MQ.Oflag (mq : MQ) : Int := mq.oflag

/-- Mqd returns the message queue descriptor. -/
def MQ.Mqd (mq : MQ) : Int := mq.mqd

def sysNotify : sys.syscall :=
  sys.mustNew (sys.New unix.SYS_MQ_NOTIFY 2
    [ErrBadFileDescriptor, ErrNoMemory, ErrNotifyBusy, ErrNotifyInvalid]) (by decide)

/-- The outcome of successive calls of `Receive`, one per deadline: the
handle and the world afterwards (a caller may recover from a panic and call
again). -/
def MQ.receiveAll : List deadline.Deadline → MQ → World → MQ × World
  | [], mq, w => (mq, w)
  | dl :: dls, mq, w =>
    match mq.Receive dl w with
    | (_, mq, w) => MQ.receiveAll dls mq w

end posixmq

/-- How many calls of the trace go to the given syscall number. -/
def countTrap (trap : Nat) (trace : List SysCall) : Nat :=
  (trace.filter (fun c => c.trap == trap)).length

/-! ## Specification predicates for names -/

/-- A valid queue name: begins with '/', has at least one further character,
and contains no '/' after the first character. -/
def validQueueName (n : List Byte) : Prop :=
  n.head? = some slash ∧ 1 < n.length ∧ slash ∉ n.tail

instance (n : List Byte) : Decidable (validQueueName n) := by
  unfold validQueueName; infer_instance

/-- The error `err` has kind `v`: `errors.Is` finds the value `v` in it. -/
def hasKind (err : Option GoError) (v : sys.Value) : Prop :=
  ∃ e, err = some e ∧ errorsIs e (.value v) = true

instance (err : Option GoError) (v : sys.Value) : Decidable (hasKind err v) :=
  match err with
  | none => isFalse (by rintro ⟨e, h, _⟩; cases h)
  | some e =>
    if h : errorsIs e (.value v) = true then isTrue ⟨e, rfl, h⟩
    else isFalse (by rintro ⟨e', h', h''⟩; cases h'; exact h h'')

/-- The reading of the error-kind contract with one kind per defect, the three
defects taken independently of each other. -/
def nameErrorKindsAsStated (n : List Byte) : Prop :=
  (posixmq.ValidateName n).2 ≠ none →
    ((n = [] ∨ n.head? ≠ some slash → hasKind (posixmq.ValidateName n).2 posixmq.ErrNameInvalid) ∧
     (n = [slash] → hasKind (posixmq.ValidateName n).2 posixmq.ErrNameEmpty) ∧
     (1 < n.count slash → hasKind (posixmq.ValidateName n).2 posixmq.ErrNameContainedMultipleSlash) ∧
     (posixmq.ValidateName n).1 = [])

/-! ## Values used in the statements about the taxonomy -/

/-- The binding that `NewErrnos` stores for a value. -/
def binding (e : sys.Value) : Nat × sys.Value := (e.Errno, e)

/-! ## The kernel calls of the lifecycle -/

/-- The kernel call that `RawClose` issues for a descriptor. -/
def closeCall (mqd : Int) : SysCall :=
  ⟨unix.SYS_CLOSE, [.word (toUintptr mqd), .word 0, .word 0]⟩

/-- The kernel call that `rawUnlink` issues for a name pointer. -/
def unlinkCall (bn : Option (List Byte)) : SysCall :=
  ⟨unix.SYS_MQ_UNLINK, [posixmq.namePtrArg bn, .word 0, .word 0]⟩

/-- A handle that went through `open`: both function fields are set. -/
def posixmq.MQ.opened (mq : posixmq.MQ) : Prop := mq.close ≠ none ∧ mq.unlink = true

/-! ## The kernel calls of attributes, send and receive -/

/-- The kernel call that `RawGetSetAttributes` issues. -/
def getSetAttrCall (mqd : Int) (newAttr : Option posixmq.Attributes) : SysCall :=
  ⟨unix.SYS_MQ_GETSETATTR,
    [.word (toUintptr mqd), posixmq.attrPtrArg newAttr, .attrPtr ⟨0, 0, 0, 0⟩]⟩

/-- The kernel call expected of `SetBlocking`: the descriptor, the address of a
new-attributes record whose flags are 0 for blocking and the non-blocking
bit `O_NONBLOCK` (0x800) otherwise, its other fields zero, and the address of
the zeroed old-attributes record. -/
def setBlockingCall (mqd : Int) (blocking : Bool) : SysCall :=
  ⟨245, [.word (toUintptr mqd),
         .attrPtr ⟨if blocking then 0 else 0x800, 0, 0, 0⟩,
         .attrPtr ⟨0, 0, 0, 0⟩]⟩

/-- The kernel call expected of `GetAttr`: the descriptor, a nil new-attributes
pointer and the address of the zeroed old-attributes record. -/
def getAttrCall (mqd : Int) : SysCall :=
  ⟨245, [.word (toUintptr mqd), .word 0, .attrPtr ⟨0, 0, 0, 0⟩]⟩

/-- The kernel call that `RawSendReceive` issues in send mode. -/
def sendCall (mqd : Int) (buf : List Byte) (priority : Nat) (t : Option unix.Timespec) :
    SysCall :=
  ⟨unix.SYS_MQ_TIMEDSEND,
    [.word (toUintptr mqd), .bufPtr buf, .word (toUintptr buf.length),
     .word (priority % 2 ^ 64), posixmq.timespecArg t, .word 0]⟩

/-- The kernel call that `RawSendReceive` issues in receive mode. -/
def recvCall (mqd : Int) (buf : List Byte) (priority : Nat) (t : Option unix.Timespec) :
    SysCall :=
  ⟨unix.SYS_MQ_TIMEDRECEIVE,
    [.word (toUintptr mqd), .bufPtr buf, .word (toUintptr buf.length),
     .prioPtr priority, posixmq.timespecArg t, .word 0]⟩

/-- The seven operation taxonomies declared by package posixmq: operation,
syscall number, arity and the error kinds passed to `sys.New`. -/
def declaredTaxonomies : List (String × Nat × Int × List sys.Value) :=
  open posixmq in
  [("open", unix.SYS_MQ_OPEN, 4,
      [ErrOpenBadAccess, ErrOpenExists, ErrOpenInvalid, ErrOpenProcessLimitReached,
       ErrNameTooLong, ErrOpenSystemLimitReached, ErrOpenNoEntry, ErrNoMemory,
       ErrOpenNoSpace]),
   ("close", unix.SYS_CLOSE, 1, [ErrBadFileDescriptor]),
   ("unlink", unix.SYS_MQ_UNLINK, 1,
      [ErrUnlinkNoPermission, ErrNameTooLong, ErrUnlinkNoMessageQueue]),
   ("send", unix.SYS_MQ_TIMEDSEND, 5,
      [ErrSendRecvTimeout, ErrSendRecvInterrupted, ErrSendRecvInvalidTimeout,
       ErrSendFullQueue, ErrSendInvalidFileDescriptor, ErrSendInvalidMessageSize]),
   ("receive", unix.SYS_MQ_TIMEDRECEIVE, 5,
      [ErrSendRecvTimeout, ErrSendRecvInterrupted, ErrSendRecvInvalidTimeout,
       ErrRecvEmptyQueue, ErrReceiveInvalidFileDescriptor, ErrRecvInvalidMessageSize]),
   ("notify", unix.SYS_MQ_NOTIFY, 2,
      [ErrBadFileDescriptor, ErrNoMemory, ErrNotifyBusy, ErrNotifyInvalid]),
   ("getsetattr", unix.SYS_MQ_GETSETATTR, 3,
      [ErrBadFileDescriptor, ErrGetSetAttrInvalidFlags])]

/-- The gateways of package posixmq, in the order of `declaredTaxonomies`. -/
def declaredGateways : List sys.syscall :=
  open posixmq in [sysOpen, sysClose, sysUnlink, sysSend, sysRecv, sysNotify, sysGetSetAttr]

/-! ## Package posixmq: printing the open flags (open.go) -/

namespace posixmq

/-- The variable `openFlagValueMap`, its entries in the order of the source
(the order in which a Go map is visited is not fixed). -/
def openFlagValueMap : List (Int × String) :=
  [(OpenWriteOnly, "O_WRONLY"),
   (OpenReadWrite, "O_RDWR"),
   (OpenCloseOnExec, "O_CLOEXEC"),
   (OpenCreate, "O_CREAT"),
   (OpenExclusive, "O_EXEC"),
   (OpenNonBlocking, "O_NONBLOCK")]

def DefaultOpenFlags : Int := intOr OpenReadOnly OpenCloseOnExec

def DefaultCreateFlags : Int :=
  intOr (intOr (intOr OpenWriteOnly OpenCloseOnExec) OpenCreate) OpenExclusive

end posixmq

/-- The order of Go strings used by `slices.Sort`: lexicographic. -/
def goStringLE (a b : String) : Prop := a.data ≤ b.data

instance : DecidableRel goStringLE := fun a b => by unfold goStringLE; infer_instance

instance : IsTotal String goStringLE := ⟨fun a b => le_total a.data b.data⟩

instance : IsTrans String goStringLE := ⟨fun _ _ _ h₁ h₂ => le_trans h₁ h₂⟩

instance : IsAntisymm String goStringLE :=
  ⟨fun _ _ h₁ h₂ => String.ext (le_antisymm h₁ h₂)⟩

namespace posixmq

/-- The slice `flagStrings` of `OpenFlag.String` after `slices.Sort`, when the
loop visits the entries of the map in the given order. -/
def OpenFlag.flagStrings (entries : List (Int × String)) (f : Int) : List String :=
  let flagStrings := (entries.filter (fun e => intAnd f e.1 = e.1)).map (·.2)
  let flagStrings :=
    if intAnd f OpenWriteOnly ≠ OpenWriteOnly ∧ intAnd f OpenReadWrite ≠ OpenReadWrite then
      flagStrings ++ ["O_RDONLY"]
    else flagStrings
  flagStrings.insertionSort goStringLE

/-- The result of `OpenFlag.String` when the loop visits the entries of the map
in the given order. -/
def OpenFlag.stringIn (entries : List (Int × String)) (f : Int) : String :=
  "|".intercalate (OpenFlag.flagStrings entries f)

/-- String identifies the set flags and combines them into a readable format. -/
def OpenFlag.String (f : Int) : String := OpenFlag.stringIn openFlagValueMap f

end posixmq

/-- The flags other than `O_EXCL` with their names: linux values and POSIX
names, independent of the table of the package. -/
def flagNameTable : List (Int × String) :=
  [(0x1, "O_WRONLY"), (0x2, "O_RDWR"), (0x80000, "O_CLOEXEC"), (0x40, "O_CREAT"),
   (0x800, "O_NONBLOCK")]

/-- The names of the three directions. -/
def directionNames : List String := ["O_RDONLY", "O_WRONLY", "O_RDWR"]

/-! ## Package encoding/binary: variable-length integers -/

/-- Conversion `byte(x)` of an unsigned integer. -/
def byteOf (x : Nat) : Byte := ⟨x % 256, Nat.mod_lt _ (by decide)⟩

namespace binary

/-- The loop of `AppendUvarint`; the first argument bounds the number of
iterations (a `uint64` needs at most nine). -/
def AppendUvarint.loop : Nat → List Byte → Nat → List Byte
  | 0, buf, x => buf ++ [byteOf x]
  | fuel + 1, buf, x =>
    if x ≥ 0x80 then
      AppendUvarint.loop fuel (buf ++ [byteOf (x % 256 ||| 0x80)]) (x >>> 7)
    else
      buf ++ [byteOf x]

/-- AppendUvarint appends the varint-encoded form of the `uint64` x to buf. -/
def AppendUvarint (buf : List Byte) (x : Nat) : List Byte :=
  AppendUvarint.loop 9 buf (x % 2 ^ 64)

/-- AppendVarint appends the varint-encoded form of the `int64` x to buf. -/
def AppendVarint (buf : List Byte) (x : Int) : List Byte :=
  let ux := (toUintptr x <<< 1) % 2 ^ 64
  let ux := if x < 0 then 2 ^ 64 - 1 - ux else ux
  AppendUvarint buf ux

def MaxVarintLen64 : Nat := 10

/-- The loop of `Uvarint`: the bytes still to read, the index `i`, the value
`x` and the shift `s`. -/
def Uvarint.loop : List Byte → Nat → Nat → Nat → Nat × Int
  | [], _, _, _ => (0, 0)
  | b :: rest, i, x, s =>
    if i = MaxVarintLen64 then
      (0, -((i : Int) + 1))
    else if b.val < 0x80 then
      if i = MaxVarintLen64 - 1 ∧ b.val > 1 then
        (0, -((i : Int) + 1))
      else
        (x ||| (b.val <<< s) % 2 ^ 64, (i : Int) + 1)
    else
      Uvarint.loop rest (i + 1) (x ||| ((b.val &&& 0x7f) <<< s) % 2 ^ 64) (s + 7)

/-- Uvarint decodes a `uint64` from buf and returns that value and the number
of bytes read. -/
def Uvarint (buf : List Byte) : Nat × Int :=
  Uvarint.loop buf 0 0 0

end binary

/-! ## The notification-mode constants (notify.go and internal/notifyValues) -/

namespace notifyValues

/-- The bytes that the generator writes to `notifyValues.bin`, for the values
of the C constants `SIGEV_NONE` and `SIGEV_SIGNAL`. -/
def main (SIGEV_NONE SIGEV_SIGNAL : Int) : List Byte :=
  [SIGEV_NONE, SIGEV_SIGNAL].foldl (fun b i => binary.AppendVarint b i) []

end notifyValues

namespace posixmq

/-- One round of the loop of `init`: decode a value, drop the bytes read. -/
def init.step (b : List Byte) : Except Panic (List Byte × Int) :=
  match binary.Uvarint b with
  | (nn, n) =>
    if n < 0 ∨ (b.length : Int) < n then .error .sliceBounds
    else .ok (b.drop n.toNat, toInt nn)

/-- Function `init` of notify.go: the values it stores in `NotifyNone` and
`NotifySignal`, given the embedded file. -/
def init (notifyValues : List Byte) : Except Panic (Int × Int) :=
  match init.step notifyValues with
  | .error p => .error p
  | .ok (b, NotifyNone) =>
    match init.step b with
    | .error p => .error p
    | .ok (_, NotifySignal) => .ok (NotifyNone, NotifySignal)

end posixmq

/-! ## Option processing -/

/-- The handle after the loop of `applyAll` applied every option in order. -/
def appliedOptions (mq : posixmq.MQ) (opts : List posixmq.MQOption) : posixmq.MQ :=
  opts.foldl (fun mq opt => opt.applyOption mq) mq

/-- The kernel call that `rawOpen` issues. -/
def openCall (name : Option (List Byte)) (oflag mode : Int)
    (attr : Option posixmq.Attributes) : SysCall :=
  ⟨unix.SYS_MQ_OPEN,
    [posixmq.namePtrArg name, .word (toUintptr oflag), .word (toUintptr mode),
     posixmq.attrPtrArg attr, .word 0, .word 0]⟩

/-- The handle that `New` builds for a name and its pointer before it applies
the options. -/
def initialHandle (name : List Byte) (bname : Option (List Byte)) : posixmq.MQ :=
  { name := name, bname := bname, attr := none, mode := 0, oflag := 0, mqd := 0, buf := [],
    close := none, unlink := false }

/-- The handle that `New` builds for "/q" before it applies the options. -/
def blankHandle : posixmq.MQ :=
  { name := [47, 113], bname := some [113, 0], attr := none, mode := 0, oflag := 0,
    mqd := 0, buf := [], close := none, unlink := false }

/-! ## A concrete environment -/

/-- A world in which every call succeeds with results 0, nothing has
happened yet, and every configuration file is empty and parsed as 0. -/
def quietWorld : World :=
  { kernel := fun _ _ => ⟨0, 0, 0⟩
    trace := []
    readFile := fun _ => ([], none)
    reads := []
    atoiTrimSpace := fun _ => (0, none) }

/-- A world as `quietWorld` whose kernel opens every queue with descriptor 7,
fails every close with `EBADF` and every unlink with `ENOENT`. -/
def failingWorld : World :=
  { quietWorld with
    kernel := fun _ c =>
      if c.trap = unix.SYS_MQ_OPEN then ⟨7, 0, 0⟩
      else if c.trap = unix.SYS_CLOSE then ⟨2 ^ 64 - 1, 0, unix.EBADF⟩
      else if c.trap = unix.SYS_MQ_UNLINK then ⟨2 ^ 64 - 1, 0, unix.ENOENT⟩
      else ⟨0, 0, 0⟩ }

/-- A handle for "/q" on descriptor 7 as `open` leaves it. -/
def openHandle : posixmq.MQ :=
  { name := [47, 113], bname := some [113, 0], attr := none, mode := 0, oflag := 0,
    mqd := 7, buf := [], close := some .fresh, unlink := true }

/-- The handle `openHandle` after a `Close` that failed with `EBADF`. -/
def closedHandle : posixmq.MQ :=
  { openHandle with
    close := some (.done (some (.typed { errno := posixmq.ErrBadFileDescriptor }))) }

/-- A world as `quietWorld` whose kernel opens every queue with descriptor 7,
reports a queue of depth 10 with messages of at most 4 bytes, and fails every
send and every receive with `EAGAIN`, the value of the call being -1. -/
def eagainWorld : World :=
  { quietWorld with
    kernel := fun _ c =>
      if c.trap = unix.SYS_MQ_OPEN then ⟨7, 0, 0⟩
      else if c.trap = unix.SYS_MQ_TIMEDSEND then ⟨2 ^ 64 - 1, 0, unix.EAGAIN⟩
      else if c.trap = unix.SYS_MQ_TIMEDRECEIVE then ⟨2 ^ 64 - 1, 0, unix.EAGAIN⟩
      else ⟨0, 0, 0⟩
    attrOut := fun _ _ => ⟨0, 10, 4, 0⟩ }

/-- A world as `eagainWorld` in which every receive delivers the two-byte
message 5, 6 with priority 3. -/
def deliveringWorld : World :=
  { eagainWorld with
    kernel := fun _ c =>
      if c.trap = unix.SYS_MQ_OPEN then ⟨7, 0, 0⟩
      else if c.trap = unix.SYS_MQ_TIMEDRECEIVE then ⟨2, 0, 0⟩
      else ⟨0, 0, 0⟩
    msgOut := fun _ _ => ([5, 6], 3) }

/-- A world as `quietWorld` without the files under `/proc/sys/fs/mqueue`:
every read fails with `ENOENT`. -/
def noProcWorld : World :=
  { quietWorld with readFile := fun _ => ([], some (.errno unix.ENOENT)) }

/-! ## Theorems -/

open posixmq

/-! ### Name validation -/

/-- C1: for every string `n`, `ValidateName n` succeeds exactly when `n` is a
valid queue name (leading '/', at least one further character, no '/' after
the first character); on success it returns `n` without its first
character, which is non-empty and free of '/'; on every other string it
fails. -/
theorem validateName_succeeds_iff_valid (n : List Byte) :
    ((ValidateName n).2 = none ↔ validQueueName n) ∧
    ((ValidateName n).2 = none →
      (ValidateName n).1 = n.tail ∧ (ValidateName n).1 ≠ [] ∧ slash ∉ (ValidateName n).1) ∧
    (¬ validQueueName n → (ValidateName n).2 ≠ none) := by
  have key : (ValidateName n).2 = none ↔ validQueueName n := by
    unfold ValidateName validQueueName
    cases n with
    | nil => simp
    | cons a rest =>
      cases rest with
      | nil => by_cases h : a = slash <;> simp [h]
      | cons b rest => by_cases h : a = slash <;> by_cases h2 : slash ∈ b :: rest <;> simp_all
  refine ⟨key, ?_, fun h hn => h (key.mp hn)⟩
  intro hs
  obtain ⟨h1, h2, h3⟩ := key.mp hs
  cases n with
  | nil => simp at h2
  | cons a rest =>
    cases rest with
    | nil => simp at h2
    | cons b rest =>
      have ha : a = slash := by simpa using h1
      subst ha
      have h3' : slash ∉ b :: rest := by simpa using h3
      simp [ValidateName, h3']

/-- Witness of C1 at the name "/q": it is valid and validated to "q". -/
theorem validateName_succeeds_iff_valid_witness :
    validQueueName [47, 113] ∧ (ValidateName [47, 113]).2 = none ∧
      (ValidateName [47, 113]).1 = [113] :=
  have h := validateName_succeeds_iff_valid [47, 113]
  have hv : validQueueName [47, 113] := by decide
  ⟨hv, h.1.mpr hv, (h.2.1 (h.1.mpr hv)).1⟩

/-- Every error built by `fmt.Errorf` around an error kind has that kind. -/
theorem hasKind_fmtErrorfW (rest : String) (v : sys.Value) :
    hasKind (some (fmtErrorfW rest v)) v :=
  ⟨_, rfl, by simp [fmtErrorfW, errorsIs]⟩

/-- An error kind returned bare has that kind. -/
theorem hasKind_value (v : sys.Value) : hasKind (some (.value v)) v :=
  ⟨_, rfl, by simp [errorsIs]⟩

/-- C2 (counterexample): the name "a//" holds more than one '/', yet its
error is of the invalid-format kind and not of the multiple-separator kind,
because the missing leading '/' is detected first. -/
theorem nameErrorKinds_asStated_fails :
    1 < ([97, 47, 47] : List Byte).count slash ∧
    (ValidateName [97, 47, 47]).2 =
      some (fmtErrorfW ", name must start with '/'" ErrNameInvalid) ∧
    ¬ hasKind (ValidateName [97, 47, 47]).2 ErrNameContainedMultipleSlash ∧
    ¬ nameErrorKindsAsStated [97, 47, 47] := by
  refine ⟨by decide, by decide, by decide, ?_⟩
  intro h
  have h3 := (h (by decide)).2.2.1 (by decide)
  exact absurd h3 (by decide)

/-- C2 (amended): for every string that `ValidateName` rejects, the error is of
the invalid-format kind when the string is empty or does not begin with '/',
of the name-empty kind when it is exactly "/", and of the multiple-separator
kind when it begins with '/' and contains more than one '/'; in every
failure the returned name is empty. -/
theorem validateName_error_kinds (n : List Byte)
    (hrej : (ValidateName n).2 ≠ none) :
    (n = [] ∨ n.head? ≠ some slash → hasKind (ValidateName n).2 ErrNameInvalid) ∧
    (n = [slash] → hasKind (ValidateName n).2 ErrNameEmpty) ∧
    (n.head? = some slash ∧ 1 < n.count slash →
      hasKind (ValidateName n).2 ErrNameContainedMultipleSlash) ∧
    (ValidateName n).1 = [] := by
  cases n with
  | nil =>
    refine ⟨fun _ => ?_, by simp, by simp, by simp [ValidateName]⟩
    simpa [ValidateName] using hasKind_fmtErrorfW _ _
  | cons a rest =>
    by_cases ha : a = slash
    · subst ha
      cases rest with
      | nil =>
        refine ⟨by simp, fun _ => ?_, by simp, by simp [ValidateName]⟩
        simpa [ValidateName] using hasKind_value _
      | cons b rest =>
        by_cases hm : slash ∈ b :: rest
        · refine ⟨by simp, by simp, fun _ => ?_, by simp [ValidateName, hm]⟩
          have := hasKind_value ErrNameContainedMultipleSlash
          simpa [ValidateName, hm] using this
        · exact absurd (by simp [ValidateName, hm]) hrej
    · refine ⟨fun _ => ?_, ?_, ?_, by simp [ValidateName, ha]⟩
      · simpa [ValidateName, ha] using hasKind_fmtErrorfW _ _
      · intro h; simp at h; exact absurd h.1 ha
      · intro h; simp at h; exact absurd h.1 ha

/-- Witness of C2 (amended) at the name "/a/b". -/
theorem validateName_error_kinds_witness :
    (ValidateName [47, 97, 47, 98]).2 ≠ none ∧
    hasKind (ValidateName [47, 97, 47, 98]).2 ErrNameContainedMultipleSlash ∧
    (ValidateName [47, 97, 47, 98]).1 = [] :=
  have h := validateName_error_kinds [47, 97, 47, 98] (by decide)
  ⟨by decide, h.2.2.1 ⟨by decide, by decide⟩, h.2.2.2⟩

/-! ### The taxonomy -/

/-- Looking a key up after a binding was appended. -/
theorem lookup_append_singleton (m : sys.Errnos) (k : Nat) (v : sys.Value) (k' : Nat) :
    sys.Errnos.lookup (m ++ [(k, v)]) k' =
      match sys.Errnos.lookup m k' with
      | some x => some x
      | none => if k = k' then some v else none := by
  induction m with
  | nil => simp [sys.Errnos.lookup]
  | cons p m ih =>
    obtain ⟨a, b⟩ := p
    by_cases h : a = k' <;> simp [sys.Errnos.lookup, h, ih]

/-- Assigning to a key that is absent appends the binding. -/
theorem insert_of_lookup_none (m : sys.Errnos) (k : Nat) (v : sys.Value)
    (h : sys.Errnos.lookup m k = none) : sys.Errnos.insert m k v = m ++ [(k, v)] := by
  induction m with
  | nil => simp [sys.Errnos.insert]
  | cons p m ih =>
    obtain ⟨a, b⟩ := p
    by_cases hk : a = k
    · simp [sys.Errnos.lookup, hk] at h
    · simp [sys.Errnos.lookup, hk] at h
      simp [sys.Errnos.insert, hk, ih h]

/-- The loop of `sys.NewErrnos` either appends one binding per value or panics;
it panics exactly when a code is already bound or occurs twice. -/
theorem newErrnos_loop_spec (errs : List sys.Value) : ∀ m : sys.Errnos,
    ((∀ e ∈ errs, sys.Errnos.lookup m e.Errno = none) ∧ (errs.map (·.Errno)).Nodup →
      sys.NewErrnos.loop m errs = .ok (m ++ errs.map binding)) ∧
    (¬ ((∀ e ∈ errs, sys.Errnos.lookup m e.Errno = none) ∧ (errs.map (·.Errno)).Nodup) →
      ∃ p, sys.NewErrnos.loop m errs = .error p) := by
  induction errs with
  | nil => intro m; simp [sys.NewErrnos.loop]
  | cons e errs ih =>
    intro m
    cases hl : sys.Errnos.lookup m e.Errno with
    | some x =>
      constructor
      · rintro ⟨h1, _⟩
        have := h1 e (by simp)
        simp [hl] at this
      · intro _
        exact ⟨.error (.errorString ("duplicate errno " ++ toString e.Errno)),
          by simp [sys.NewErrnos.loop, hl]⟩
    | none =>
      have hins := insert_of_lookup_none m e.Errno e hl
      have hstep : sys.NewErrnos.loop m (e :: errs) = sys.NewErrnos.loop (m ++ [(e.Errno, e)]) errs := by
        simp [sys.NewErrnos.loop, hl, hins]
      have hcond : ((∀ x ∈ e :: errs, sys.Errnos.lookup m x.Errno = none) ∧
            ((e :: errs).map (·.Errno)).Nodup) ↔
          ((∀ x ∈ errs, sys.Errnos.lookup (m ++ [(e.Errno, e)]) x.Errno = none) ∧
            (errs.map (·.Errno)).Nodup) := by
        simp only [List.mem_cons, forall_eq_or_imp, hl, true_and, List.map_cons,
          List.nodup_cons, List.mem_map, not_exists, not_and,
          lookup_append_singleton]
        constructor
        · rintro ⟨h1, h2, h3⟩
          refine ⟨fun x hx => ?_, h3⟩
          have hne : ¬ e.Errno = x.Errno := fun h => h2 x hx h.symm
          simp [h1 x hx, hne]
        · rintro ⟨h1, h3⟩
          refine ⟨fun x hx => ?_, fun x hx heq => ?_, h3⟩
          · have := h1 x hx
            cases hx' : sys.Errnos.lookup m x.Errno with
            | none => rfl
            | some y => simp [hx'] at this
          · have := h1 x hx
            cases hx' : sys.Errnos.lookup m x.Errno with
            | none => simp [hx', heq.symm] at this
            | some y => simp [hx'] at this
      rw [hstep, hcond]
      have := ih (m ++ [(e.Errno, e)])
      simpa [binding, List.append_assoc] using this

/-- The map built by `sys.NewErrnos` when it does not panic. -/
theorem newErrnos_eq_ok (errs : List sys.Value) (m : sys.Errnos)
    (h : sys.NewErrnos errs = .ok m) : m = errs.map binding ∧ (errs.map (·.Errno)).Nodup := by
  by_cases hc : (errs.map (·.Errno)).Nodup
  · have := (newErrnos_loop_spec errs []).1 ⟨fun _ _ => rfl, hc⟩
    unfold sys.NewErrnos at h
    rw [this] at h
    simp at h
    exact ⟨h.symm, hc⟩
  · obtain ⟨p, hp⟩ := (newErrnos_loop_spec errs []).2 (fun hh => hc hh.2)
    unfold sys.NewErrnos at h
    rw [hp] at h
    cases h

/-- A lookup in a list of bindings finds a member bound to its own code. -/
theorem lookup_bindings_some (errs : List sys.Value) (k : Nat) (v : sys.Value)
    (h : sys.Errnos.lookup (errs.map binding) k = some v) : v ∈ errs ∧ v.Errno = k := by
  induction errs with
  | nil => simp [sys.Errnos.lookup] at h
  | cons e errs ih =>
    by_cases hk : e.Errno = k
    · simp [sys.Errnos.lookup, binding, hk] at h
      subst h
      exact ⟨by simp, hk⟩
    · simp only [List.map_cons, binding, sys.Errnos.lookup, hk, if_false] at h
      have := ih h
      exact ⟨by simp [this.1], this.2⟩

/-- With pairwise distinct codes every member is found under its code. -/
theorem lookup_bindings_mem (errs : List sys.Value)
    (hnd : (errs.map (·.Errno)).Nodup) (e : sys.Value) (he : e ∈ errs) :
    sys.Errnos.lookup (errs.map binding) e.Errno = some e := by
  induction errs with
  | nil => simp at he
  | cons x errs ih =>
    simp only [List.map_cons, List.nodup_cons, List.mem_map, not_exists, not_and] at hnd
    rcases List.mem_cons.mp he with rfl | hmem
    · simp [sys.Errnos.lookup, binding]
    · have hne : ¬ x.Errno = e.Errno := fun h => hnd.1 e hmem h.symm
      simp only [List.map_cons, binding, sys.Errnos.lookup, hne, if_false]
      exact ih hnd.2 hmem

/-- C5: `sys.NewErrnos errs` panics if and only if two entries of `errs` report
the same code; otherwise the map it returns has exactly one binding per
element of `errs`, each element found under its own code and nothing else
bound. -/
theorem newErrnos_panics_iff_duplicate (errs : List sys.Value) :
    ((∃ p, sys.NewErrnos errs = .error p) ↔ ¬ (errs.map (·.Errno)).Nodup) ∧
    (∀ m, sys.NewErrnos errs = .ok m →
      m.length = errs.length ∧
      (∀ e ∈ errs, sys.Errnos.lookup m e.Errno = some e) ∧
      (∀ k v, sys.Errnos.lookup m k = some v → v ∈ errs ∧ v.Errno = k)) := by
  refine ⟨⟨?_, ?_⟩, ?_⟩
  · rintro ⟨p, hp⟩ hnd
    have := (newErrnos_loop_spec errs []).1 ⟨fun _ _ => rfl, hnd⟩
    unfold sys.NewErrnos at hp
    rw [this] at hp
    cases hp
  · intro hnd
    exact (newErrnos_loop_spec errs []).2 (fun hh => hnd hh.2)
  · intro m hm
    obtain ⟨rfl, hnd⟩ := newErrnos_eq_ok errs m hm
    exact ⟨by simp, fun e he => lookup_bindings_mem errs hnd e he,
      fun k v h => lookup_bindings_some errs k v h⟩

/-- Witness of C5: two kinds with the code `EAGAIN` make `sys.NewErrnos` panic, and
the three kinds of the unlink call are bound one by one. -/
theorem newErrnos_panics_iff_duplicate_witness :
    (∃ p, sys.NewErrnos [ErrSendFullQueue, ErrRecvEmptyQueue] = .error p) ∧
    sys.NewErrnos [ErrUnlinkNoPermission, ErrNameTooLong, ErrUnlinkNoMessageQueue] =
      .ok [(13, ErrUnlinkNoPermission), (36, ErrNameTooLong), (2, ErrUnlinkNoMessageQueue)] ∧
    (∀ m, sys.NewErrnos [ErrUnlinkNoPermission, ErrNameTooLong, ErrUnlinkNoMessageQueue] = .ok m →
      m.length = 3) :=
  ⟨(newErrnos_panics_iff_duplicate [ErrSendFullQueue, ErrRecvEmptyQueue]).1.mpr (by decide),
   rfl,
   fun m hm => ((newErrnos_panics_iff_duplicate
      [ErrUnlinkNoPermission, ErrNameTooLong, ErrUnlinkNoMessageQueue]).2 m hm).1⟩

/-- When no value of the list reports the code 0, `Get 0` is nil. -/
theorem get_zero_of_unregistered (errs : List sys.Value) (m : sys.Errnos)
    (hm : sys.NewErrnos errs = .ok m) (h0 : ∀ e ∈ errs, e.Errno ≠ 0) :
    sys.Errnos.Get m 0 = none := by
  obtain ⟨rfl, _⟩ := newErrnos_eq_ok errs m hm
  cases hl : sys.Errnos.lookup (errs.map binding) 0 with
  | none => simp [sys.Errnos.Get, hl]
  | some v =>
    have := lookup_bindings_some errs 0 v hl
    exact absurd this.2 (h0 v this.1)

/-- In every error kind of package posixmq the type parameter of the embedded
`Err[T]` is the kind itself, so `errno()` and `Errno()` agree. -/
theorem errorKinds_errno_eq : ∀ v ∈ errorKinds, v.errno = v.Errno := by
  decide

/-- No error kind of package posixmq reports the success code 0. -/
theorem errorKinds_code_nonzero : ∀ v ∈ errorKinds, v.Errno ≠ 0 := by
  decide

/-- C3: for every taxonomy that `NewErrnos` builds from a list of error values
(the error kinds of package posixmq, the only implementations of `sys.Value`),
`Get 0` returns nil; in particular it does so on the taxonomy of each of the
seven gateways of the package. -/
theorem get_zero_is_nil (errs : List sys.Value) (m : sys.Errnos)
    (hkinds : ∀ v ∈ errs, v ∈ errorKinds) (hm : sys.NewErrnos errs = .ok m) :
    sys.Errnos.Get m 0 = none ∧
    ∀ s ∈ declaredGateways, sys.Errnos.Get s.errs 0 = none :=
  ⟨get_zero_of_unregistered errs m hm (fun e he => errorKinds_code_nonzero e (hkinds e he)),
   by decide⟩

/-- Witness of C3 on the taxonomy of the open call. -/
theorem get_zero_is_nil_witness :
    sys.NewErrnos [ErrOpenBadAccess, ErrOpenExists, ErrOpenInvalid,
      ErrOpenProcessLimitReached, ErrNameTooLong, ErrOpenSystemLimitReached, ErrOpenNoEntry,
      ErrNoMemory, ErrOpenNoSpace] = .ok sysOpen.errs ∧
    sys.Errnos.Get sysOpen.errs 0 = none :=
  have hm : sys.NewErrnos [ErrOpenBadAccess, ErrOpenExists, ErrOpenInvalid,
      ErrOpenProcessLimitReached, ErrNameTooLong, ErrOpenSystemLimitReached, ErrOpenNoEntry,
      ErrNoMemory, ErrOpenNoSpace] = .ok sysOpen.errs := rfl
  ⟨hm, (get_zero_is_nil _ _ (by decide) hm).1⟩

/-- C4: in a taxonomy built from error kinds of package posixmq, for every code
`c` other than 0, `Get c` is non-nil; when `c` is registered with value `v` it
is the typed wrapper of `v`, whose `Unwrap` is `v`, whose own `Unwrap` is `c`
(where the chain ends), with the message of `v` and the temporary/timeout
classification of `c`; when `c` is not registered it is the raw code `c`. -/
theorem get_nonzero_code (errs : List sys.Value) (m : sys.Errnos) (c : Nat)
    (hkinds : ∀ v ∈ errs, v ∈ errorKinds) (hm : sys.NewErrnos errs = .ok m) (hc : c ≠ 0) :
    sys.Errnos.Get m c ≠ none ∧
    (∀ v, sys.Errnos.lookup m c = some v →
      sys.Errnos.Get m c = some (.typed { errno := v }) ∧
      (GoError.typed { errno := v }).Unwrap = some (.value v) ∧
      (GoError.value v).Unwrap = some (.errno c) ∧
      (GoError.errno c).Unwrap = none ∧
      sys.Errno.Unwrap { errno := v } = v ∧
      v.Unwrap = c ∧
      sys.Errno.Error { errno := v } = v.Error ∧
      sys.Errno.Temporary { errno := v } = unix.Errno.Temporary c ∧
      sys.Errno.Timeout { errno := v } = unix.Errno.Timeout c) ∧
    (sys.Errnos.lookup m c = none →
      sys.Errnos.Get m c = some (.errno c) ∧ (GoError.errno c).Unwrap = none) := by
  obtain ⟨rfl, _⟩ := newErrnos_eq_ok errs m hm
  refine ⟨?_, ?_, ?_⟩
  · cases hl : sys.Errnos.lookup (errs.map binding) c <;> simp [sys.Errnos.Get, hl, hc]
  · intro v hl
    obtain ⟨hmem, hcode⟩ := lookup_bindings_some errs c v hl
    have herr := errorKinds_errno_eq v (hkinds v hmem)
    simp [sys.Errnos.Get, hl, GoError.Unwrap, sys.Errno.Unwrap, sys.Value.Unwrap,
      sys.Errno.Error, sys.Errno.Temporary, sys.Errno.Timeout, herr, hcode]
  · intro hl
    simp [sys.Errnos.Get, hl, hc, GoError.Unwrap]

/-- Witness of C4 on the taxonomy of the open call: `EEXIST` is registered and
`EBUSY` is not. -/
theorem get_nonzero_code_witness :
    sys.Errnos.Get sysOpen.errs unix.EEXIST = some (.typed { errno := ErrOpenExists }) ∧
    sys.Errnos.Get sysOpen.errs unix.EBUSY = some (.errno unix.EBUSY) :=
  have hk : ∀ v ∈ [ErrOpenBadAccess, ErrOpenExists, ErrOpenInvalid, ErrOpenProcessLimitReached,
      ErrNameTooLong, ErrOpenSystemLimitReached, ErrOpenNoEntry, ErrNoMemory,
      ErrOpenNoSpace], v ∈ errorKinds := by decide
  have hm : sys.NewErrnos [ErrOpenBadAccess, ErrOpenExists, ErrOpenInvalid,
      ErrOpenProcessLimitReached, ErrNameTooLong, ErrOpenSystemLimitReached, ErrOpenNoEntry,
      ErrNoMemory, ErrOpenNoSpace] = .ok sysOpen.errs := rfl
  ⟨((get_nonzero_code _ _ unix.EEXIST hk hm (by decide)).2.1 ErrOpenExists (by decide)).1,
   ((get_nonzero_code _ _ unix.EBUSY hk hm (by decide)).2.2 (by decide)).1⟩

/-! ### Local validation -/

/-- The error of `CallValues` for a wrong number of arguments. -/
theorem callValues_wrong_arity (s : sys.syscall) (args : List Arg) (w : World)
    (harity : (args.length : Int) ≠ s.params) :
    s.CallValues args w =
      ((0, 0, some (.errorString
        ("got " ++ toString args.length ++ " params, expected " ++ toString s.params))), w) := by
  simp [sys.syscall.CallValues, harity]

/-- C6: local validation failures come back before any system call. With a
number of arguments different from the declared arity, `CallValues`,
`CallValue` and `Call` return the argument-count error (values 0 and 0) and
leave the world, hence the trace of kernel calls, as it was; with a name
that `ValidateName` rejects, `New`, `RawOpen` and `RawUnlink` return that
validation error and leave the world as it was. -/
theorem local_failures_skip_kernel (s : sys.syscall) (args : List Arg) (w : World)
    (name : List Byte) (opts : List MQOption) (oflag mode : Int) (attr : Option Attributes)
    (err : GoError)
    (harity : (args.length : Int) ≠ s.params)
    (hname : (ValidateName name).2 = some err) :
    (s.CallValues args w =
      ((0, 0, some (.errorString
        ("got " ++ toString args.length ++ " params, expected " ++ toString s.params))), w) ∧
     s.CallValue args w =
      ((0, some (.errorString
        ("got " ++ toString args.length ++ " params, expected " ++ toString s.params))), w) ∧
     s.Call args w =
      (some (.errorString
        ("got " ++ toString args.length ++ " params, expected " ++ toString s.params)), w)) ∧
    ((s.CallValues args w).2.trace = w.trace ∧ (s.CallValue args w).2.trace = w.trace ∧
     (s.Call args w).2.trace = w.trace) ∧
    (New name opts w = ((none, some err), w) ∧
     RawOpen name oflag mode attr w = ((0, some err), w) ∧
     RawUnlink name w = (some err, w)) ∧
    ((New name opts w).2.trace = w.trace ∧ (RawOpen name oflag mode attr w).2.trace = w.trace ∧
     (RawUnlink name w).2.trace = w.trace) := by
  have h1 := callValues_wrong_arity s args w harity
  have h2 : s.CallValue args w =
      ((0, some (.errorString
        ("got " ++ toString args.length ++ " params, expected " ++ toString s.params))), w) := by
    simp [sys.syscall.CallValue, h1]
  have h3 : s.Call args w =
      (some (.errorString
        ("got " ++ toString args.length ++ " params, expected " ++ toString s.params)), w) := by
    simp [sys.syscall.Call, h2]
  have hp : namePtrFromString name = (none, some err) := by
    unfold namePtrFromString
    rcases hv : ValidateName name with ⟨a, b⟩
    rw [hv] at hname
    simp at hname
    subst hname
    rfl
  have h4 : New name opts w = ((none, some err), w) := by simp [New, hp]
  have h5 : RawOpen name oflag mode attr w = ((0, some err), w) := by simp [RawOpen, hp]
  have h6 : RawUnlink name w = (some err, w) := by simp [RawUnlink, hp]
  refine ⟨⟨h1, h2, h3⟩, ⟨?_, ?_, ?_⟩, ⟨h4, h5, h6⟩, ⟨?_, ?_, ?_⟩⟩
  · rw [h1]
  · rw [h2]
  · rw [h3]
  · rw [h4]
  · rw [h5]
  · rw [h6]

/-- Witness of C6: the close gateway (arity 1) called with two arguments, and
the name "q" without its leading '/'. -/
theorem local_failures_skip_kernel_witness :
    (sysClose.Call [.word 3, .word 4] quietWorld).1 =
      some (.errorString "got 2 params, expected 1") ∧
    (sysClose.Call [.word 3, .word 4] quietWorld).2.trace = [] ∧
    (New [113] [] quietWorld).1 =
      (none, some (fmtErrorfW ", name must start with '/'" ErrNameInvalid)) ∧
    (New [113] [] quietWorld).2.trace = [] :=
  have h := local_failures_skip_kernel sysClose [.word 3, .word 4] quietWorld [113] [] 0 0 none
    (fmtErrorfW ", name must start with '/'" ErrNameInvalid) (by decide) (by decide)
  ⟨by rw [h.1.2.2]; decide, h.2.1.2.2, by rw [h.2.2.1.1], h.2.2.2.1⟩

/-! ### Deadlines -/

/-- C7: for a deadline reporting `(t, ok)`, `deadline.ToTimespec` returns `(nil, nil)` if
and only if `ok` is false or `t` is the zero time; otherwise it returns a
non-nil timespec, the conversion of `t` with seconds `t.Unix()` and
nanoseconds `t.Nanosecond()`, together with the error of the conversion. In
particular `NoDeadline` gives `(nil, nil)` and `TimeDeadline t` gives a nil
timespec exactly when `t` is the zero time. -/
theorem toTimespec_nil_iff (d : deadline.Deadline) :
    (deadline.ToTimespec d = (none, none) ↔ (d.Deadline.2 = false ∨ d.Deadline.1.IsZero = true)) ∧
    (¬ (d.Deadline.2 = false ∨ d.Deadline.1.IsZero = true) →
      deadline.ToTimespec d =
        (some (unix.TimeToTimespec d.Deadline.1).1, (unix.TimeToTimespec d.Deadline.1).2) ∧
      (unix.TimeToTimespec d.Deadline.1).1 =
        { Sec := d.Deadline.1.Unix, Nsec := d.Deadline.1.Nanosecond }) ∧
    deadline.ToTimespec .NoDeadline = (none, none) ∧
    (∀ t, ((deadline.ToTimespec (.TimeDeadline t)).1 = none ↔ t.IsZero = true) ∧
          (deadline.ToTimespec (.TimeDeadline t) = (none, none) ↔ t.IsZero = true)) := by
  have hconv : ∀ t : time.Time, unix.TimeToTimespec t =
      ({ Sec := t.Unix, Nsec := t.Nanosecond }, none) := by
    intro t
    simp [unix.TimeToTimespec, unix.setTimespec]
  have key : ∀ d : deadline.Deadline,
      deadline.ToTimespec d = if d.Deadline.2 = false ∨ d.Deadline.1.IsZero = true then (none, none)
        else (some (unix.TimeToTimespec d.Deadline.1).1, (unix.TimeToTimespec d.Deadline.1).2) := by
    intro d
    unfold deadline.ToTimespec
    rcases hd : d.Deadline with ⟨t, ok⟩
    cases ok <;> cases hz : t.IsZero <;> simp [hz]
  refine ⟨?_, ?_, ?_, ?_⟩
  · rw [key d]
    by_cases h : d.Deadline.2 = false ∨ d.Deadline.1.IsZero = true
    · simp [h]
    · simp only [h, if_false, iff_false]
      intro hc
      cases hc
  · intro h
    refine ⟨?_, ?_⟩
    · rw [key d]; simp only [h, if_false]
    · rw [hconv]
  · rfl
  · intro t
    rw [key (.TimeDeadline t)]
    cases hz : t.IsZero <;> simp [deadline.Deadline.Deadline, hz]

/-- Witness of C7: the deadline one second and five nanoseconds after the Unix
epoch. -/
theorem toTimespec_nil_iff_witness :
    deadline.ToTimespec (.TimeDeadline ⟨62135596801, 5⟩) = (some { Sec := 1, Nsec := 5 }, none) ∧
    deadline.ToTimespec (.other ⟨62135596801, 5⟩ false) = (none, none) :=
  ⟨by
    have h := (toTimespec_nil_iff (.TimeDeadline ⟨62135596801, 5⟩)).2.1 (by decide)
    rw [h.1, h.2]; decide,
   (toTimespec_nil_iff (.other ⟨62135596801, 5⟩ false)).1.mpr (by decide)⟩

/-! ### Close and Unlink -/

/-- What `RawClose` does: one kernel call, its code sent through the taxonomy. -/
theorem rawClose_eq (mqd : Int) (w : World) :
    RawClose mqd w =
      (sysClose.errs.Get (w.kernel w.trace (closeCall mqd)).en,
       { w with trace := w.trace ++ [closeCall mqd] }) := by
  rfl

/-- What `rawUnlink` does: one kernel call, its code sent through the taxonomy. -/
theorem rawUnlink_eq (bn : Option (List Byte)) (w : World) :
    rawUnlink bn w =
      (sysUnlink.errs.Get (w.kernel w.trace (unlinkCall bn)).en,
       { w with trace := w.trace ++ [unlinkCall bn] }) := by
  rfl

/-- A handle returned by `New` has a fresh once-guard for close and its unlink
function set. -/
theorem new_handle_fresh (name : List Byte) (opts : List MQOption) (w0 w : World) (mq : MQ)
    (hnew : New name opts w0 = ((some mq, none), w)) :
    mq.close = some .fresh ∧ mq.unlink = true := by
  unfold New at hnew
  rcases hp : namePtrFromString name with ⟨bn, _ | e⟩
  · simp only [hp] at hnew
    generalize hA : MQ.applyAll _ opts w0 = ra at hnew
    rcases ra with ⟨⟨mq1, _ | e1⟩, w1⟩
    · simp only at hnew
      unfold MQ.open at hnew
      rcases hro : rawOpen mq1.bname mq1.oflag mq1.mode mq1.attr w1 with ⟨⟨mqd, _ | e2⟩, w2⟩
      · simp only [hro] at hnew
        simp only [Prod.mk.injEq, Option.some.injEq, true_and] at hnew
        obtain ⟨⟨h, _⟩, _⟩ := hnew
        subst h
        exact ⟨rfl, rfl⟩
      · simp [hro] at hnew
    · simp at hnew
  · simp [hp] at hnew

/-- Once the guard holds a result, every further `Close` returns it and touches
nothing. -/
theorem closeTimes_done (n : Nat) (mq : MQ) (w : World) (r : Option GoError)
    (h : mq.close = some (.done r)) :
    MQ.closeTimes n mq w = .ok ((List.replicate n r, mq), w) := by
  induction n with
  | zero => rfl
  | succ n ih => simp [MQ.closeTimes, MQ.Close, h, ih, List.replicate_succ]

/-- C8: on a handle as `open` leaves it, `n ≥ 1` calls of `Close` run without
panic, the close call `RawClose` on the descriptor is executed exactly once
(the trace grows by that one kernel call), and every one of the `n` calls
returns the result of that single execution. -/
theorem close_runs_rawClose_once (mq : MQ) (w : World) (n : Nat)
    (hfresh : mq.close = some .fresh) (hn : 1 ≤ n) :
    MQ.closeTimes n mq w =
      .ok ((List.replicate n (RawClose mq.mqd w).1,
            { mq with close := some (.done (RawClose mq.mqd w).1) }),
           (RawClose mq.mqd w).2) ∧
    (RawClose mq.mqd w).1 = sysClose.errs.Get (w.kernel w.trace (closeCall mq.mqd)).en ∧
    (RawClose mq.mqd w).2.trace = w.trace ++ [closeCall mq.mqd] ∧
    countTrap unix.SYS_CLOSE (RawClose mq.mqd w).2.trace = countTrap unix.SYS_CLOSE w.trace + 1 := by
  refine ⟨?_, by rw [rawClose_eq], by rw [rawClose_eq], ?_⟩
  · obtain ⟨k, rfl⟩ : ∃ k, n = k + 1 := ⟨n - 1, by omega⟩
    have hd := closeTimes_done k { mq with close := some (.done (RawClose mq.mqd w).1) }
      (RawClose mq.mqd w).2 (RawClose mq.mqd w).1 rfl
    simp [MQ.closeTimes, MQ.Close, hfresh, hd, List.replicate_succ]
  · rw [rawClose_eq]
    simp [countTrap, List.filter_append, closeCall]

/-- Witness of C8: three calls of `Close` on the handle that `New` returns for
"/q" in a world whose kernel fails every close with `EBADF`. -/
theorem close_runs_rawClose_once_witness :
    ∃ mq w, New [47, 113] [] failingWorld = ((some mq, none), w) ∧
      mq.close = some .fresh ∧
      MQ.closeTimes 3 mq w =
        .ok ((List.replicate 3 (RawClose mq.mqd w).1,
              { mq with close := some (.done (RawClose mq.mqd w).1) }),
             (RawClose mq.mqd w).2) ∧
      (RawClose mq.mqd w).1 = some (.typed { errno := ErrBadFileDescriptor }) ∧
      countTrap unix.SYS_CLOSE (RawClose mq.mqd w).2.trace = 1 := by
  refine ⟨_, _, rfl, rfl, ?_, rfl, by decide⟩
  exact (close_runs_rawClose_once _ _ 3 rfl (by decide)).1

/-- On an opened handle `Close` does not panic, returns the cached or the
fresh result, and leaves the name pointer and the unlink function alone. -/
theorem close_of_opened (mq : MQ) (w : World) (ho : mq.opened) :
    ∃ cr mq1 w1, mq.Close w = .ok ((cr, mq1), w1) ∧ mq1.bname = mq.bname ∧ mq1.opened ∧
      mq1.close = some (.done cr) ∧
      ((mq.close = some .fresh ∧ (cr, w1) = RawClose mq.mqd w) ∨
       (mq.close = some (.done cr) ∧ w1 = w)) := by
  obtain ⟨hc, hu⟩ := ho
  rcases hcl : mq.close with _ | (_ | r)
  · exact absurd hcl hc
  · refine ⟨(RawClose mq.mqd w).1, { mq with close := some (.done (RawClose mq.mqd w).1) },
      (RawClose mq.mqd w).2, ?_, rfl, ⟨by simp, hu⟩, rfl, Or.inl ⟨rfl, rfl⟩⟩
    simp [MQ.Close, hcl]
  · exact ⟨r, mq, w, by simp [MQ.Close, hcl], rfl, ⟨hc, hu⟩, hcl, Or.inr ⟨rfl, rfl⟩⟩

/-- What `errors.Join` returns on two arguments. -/
theorem errorsJoin_spec (a b : Option GoError) :
    (errorsJoin a b = none ↔ a = none ∧ b = none) ∧
    (∀ e, a = some e → ∃ j, errorsJoin a b = some j ∧ e ∈ j.joined ∧ errorsIs j e = true) ∧
    (∀ e, b = some e → ∃ j, errorsJoin a b = some j ∧ e ∈ j.joined ∧ errorsIs j e = true) := by
  have hrefl : ∀ e : GoError, errorsIs e e = true := by
    intro e; cases e <;> simp [errorsIs]
  cases a <;> cases b <;> simp [errorsJoin, GoError.joined, errorsIs, hrefl]

/-- C9: on an opened handle, closed before or not, `Unlink` performs `Close` and
then issues the namespace-removal call whatever `Close` returned; its result
is the join of the two results: nil if and only if both are nil, and
otherwise an error whose wrapped errors include every non-nil one of the
two. -/
theorem unlink_joins_close_and_removal (mq : MQ) (w : World) (ho : mq.opened) :
    ∃ cr mq1 w1, mq.Close w = .ok ((cr, mq1), w1) ∧
      mq.Unlink w =
        .ok ((errorsJoin cr (rawUnlink mq.bname w1).1, mq1), (rawUnlink mq.bname w1).2) ∧
      (rawUnlink mq.bname w1).2.trace = w1.trace ++ [unlinkCall mq.bname] ∧
      (errorsJoin cr (rawUnlink mq.bname w1).1 = none ↔
        cr = none ∧ (rawUnlink mq.bname w1).1 = none) ∧
      (∀ e, cr = some e → ∃ j, errorsJoin cr (rawUnlink mq.bname w1).1 = some j ∧
        e ∈ j.joined ∧ errorsIs j e = true) ∧
      (∀ e, (rawUnlink mq.bname w1).1 = some e →
        ∃ j, errorsJoin cr (rawUnlink mq.bname w1).1 = some j ∧
          e ∈ j.joined ∧ errorsIs j e = true) := by
  obtain ⟨cr, mq1, w1, hclose, hb, ho1, _, _⟩ := close_of_opened mq w ho
  have hj := errorsJoin_spec cr (rawUnlink mq.bname w1).1
  refine ⟨cr, mq1, w1, hclose, ?_, by rw [rawUnlink_eq], hj.1, hj.2.1, hj.2.2⟩
  simp [MQ.Unlink, hclose, ho1.2, hb]

/-- Witness of C9: `Unlink` on a handle for "/q" that was closed before with
error `EBADF`, in a world whose kernel fails unlink with `ENOENT`: the
removal call is issued and both errors are in the result. -/
theorem unlink_joins_close_and_removal_witness :
    closedHandle.opened ∧
    (∃ cr mq1 w1, closedHandle.Close failingWorld = .ok ((cr, mq1), w1) ∧
      closedHandle.Unlink failingWorld =
        .ok ((errorsJoin cr (rawUnlink closedHandle.bname w1).1, mq1),
             (rawUnlink closedHandle.bname w1).2)) ∧
    closedHandle.Unlink failingWorld =
      .ok ((some (.join2 (.typed { errno := ErrBadFileDescriptor })
                         (.typed { errno := ErrUnlinkNoMessageQueue })), closedHandle),
           { failingWorld with trace := [unlinkCall (some [113, 0])] }) :=
  have ho : closedHandle.opened := ⟨by decide, rfl⟩
  ⟨ho,
   let ⟨cr, mq1, w1, h1, h2, _⟩ := unlink_joins_close_and_removal closedHandle failingWorld ho
   ⟨cr, mq1, w1, h1, h2⟩,
   rfl⟩

/-- One `Unlink` on an opened handle: it does not panic, leaves the handle
opened with its once-guard used, issues one removal call, and issues the
close call only when the once-guard was fresh. -/
theorem unlink_step (mq : MQ) (w : World) (ho : mq.opened) :
    ∃ r mq1 w2, mq.Unlink w = .ok ((r, mq1), w2) ∧ mq1.opened ∧
      (∃ cr, mq1.close = some (.done cr)) ∧
      countTrap unix.SYS_MQ_UNLINK w2.trace = countTrap unix.SYS_MQ_UNLINK w.trace + 1 ∧
      countTrap unix.SYS_CLOSE w2.trace =
        countTrap unix.SYS_CLOSE w.trace + (if mq.close = some .fresh then 1 else 0) := by
  obtain ⟨cr, mq1, w1, hclose, hb, ho1, hdone, hcase⟩ := close_of_opened mq w ho
  refine ⟨errorsJoin cr (rawUnlink mq.bname w1).1, mq1, (rawUnlink mq.bname w1).2, ?_, ho1,
    ⟨cr, hdone⟩, ?_, ?_⟩
  · simp [MQ.Unlink, hclose, ho1.2, hb]
  · rcases hcase with ⟨_, h⟩ | ⟨_, h⟩
    · have hw : w1 = (RawClose mq.mqd w).2 := congrArg Prod.snd h
      rw [rawUnlink_eq, hw, rawClose_eq]
      simp [countTrap, List.filter_append, List.filter, closeCall, unlinkCall,
        unix.SYS_CLOSE, unix.SYS_MQ_UNLINK]
    · rw [rawUnlink_eq, h]
      simp [countTrap, List.filter_append, List.filter, unlinkCall]
  · rcases hcase with ⟨hf, h⟩ | ⟨hd, h⟩
    · have hw : w1 = (RawClose mq.mqd w).2 := congrArg Prod.snd h
      rw [rawUnlink_eq, hw, rawClose_eq]
      simp [countTrap, List.filter_append, List.filter, closeCall, unlinkCall, hf,
        unix.SYS_CLOSE, unix.SYS_MQ_UNLINK]
    · rw [rawUnlink_eq, h]
      simp [countTrap, List.filter_append, List.filter, unlinkCall, hd,
        unix.SYS_CLOSE, unix.SYS_MQ_UNLINK]

/-- The trace of `n` calls of `Unlink` on an opened handle: `n` removal calls,
and one close call when the once-guard was fresh and `n` is positive. -/
theorem unlinkTimes_trace (n : Nat) : ∀ (mq : MQ) (w : World), mq.opened →
    ∃ rs mq' w', MQ.unlinkTimes n mq w = .ok ((rs, mq'), w') ∧ rs.length = n ∧
      countTrap unix.SYS_MQ_UNLINK w'.trace = countTrap unix.SYS_MQ_UNLINK w.trace + n ∧
      countTrap unix.SYS_CLOSE w'.trace =
        countTrap unix.SYS_CLOSE w.trace + (if mq.close = some .fresh ∧ 0 < n then 1 else 0) := by
  induction n with
  | zero => intro mq w _; exact ⟨[], mq, w, rfl, rfl, rfl, by simp⟩
  | succ n ih =>
    intro mq w ho
    obtain ⟨r, mq1, w2, hu, ho1, ⟨cr, hdone⟩, hcu, hcc⟩ := unlink_step mq w ho
    obtain ⟨rs, mq', w', ht, hlen, hcu', hcc'⟩ := ih mq1 w2 ho1
    refine ⟨r :: rs, mq', w', by simp [MQ.unlinkTimes, hu, ht], by simp [hlen], ?_, ?_⟩
    · rw [hcu', hcu]; omega
    · rw [hcc', hcc]
      simp [hdone]

/-- C10 (failing input): on the handle that `New` returns for "/q", two calls of
`Unlink` issue the namespace-removal call twice (and the close call once). -/
theorem unlink_twice_removes_twice :
    ∃ mq w rs mq' w', New [47, 113] [] failingWorld = ((some mq, none), w) ∧
      MQ.unlinkTimes 2 mq w = .ok ((rs, mq'), w') ∧
      w'.trace = w.trace ++
        [closeCall 7, unlinkCall (some [113, 0]), unlinkCall (some [113, 0])] ∧
      countTrap unix.SYS_MQ_UNLINK w'.trace = 2 ∧
      countTrap unix.SYS_CLOSE w'.trace = 1 := by
  refine ⟨_, _, _, _, _, rfl, rfl, rfl, by decide, by decide⟩

/-! ### The taxonomies of the package -/

/-- C18: each of the seven operation taxonomies of the package (open, close,
unlink, send, receive, notify, get/set-attributes) lists error kinds with
pairwise distinct codes: two kinds of one list with the same code are the
same kind, `sys.New` builds the gateway without panic, and the gateways so
built are the seven package variables. -/
theorem declared_taxonomies_distinct_codes :
    (∀ t ∈ declaredTaxonomies,
      (t.2.2.2.map (·.Errno)).Nodup ∧
      (∀ v₁ ∈ t.2.2.2, ∀ v₂ ∈ t.2.2.2, v₁.Errno = v₂.Errno → v₁ = v₂) ∧
      (sys.New t.2.1 t.2.2.1 t.2.2.2).toBool = true) ∧
    declaredTaxonomies.map (fun t => sys.New t.2.1 t.2.2.1 t.2.2.2) =
      declaredGateways.map Except.ok := by
  refine ⟨?_, rfl⟩
  have hnd : ∀ t ∈ declaredTaxonomies, (t.2.2.2.map (·.Errno)).Nodup := by decide
  intro t ht
  refine ⟨hnd t ht, ?_, ?_⟩
  · intro v₁ h₁ v₂ h₂ heq
    exact List.inj_on_of_nodup_map (hnd t ht) h₁ h₂ heq
  · have hcodes := hnd t ht
    cases h : sys.NewErrnos t.2.2.2 with
    | error p =>
      have := (newErrnos_loop_spec t.2.2.2 []).1 ⟨fun _ _ => rfl, hcodes⟩
      unfold sys.NewErrnos at h
      rw [this] at h
      cases h
    | ok m => simp [sys.New, h, Except.toBool]

/-! ### Attributes, send and receive -/

/-- The conversion of a deadline never fails on this platform. -/
theorem toTimespec_no_error (dl : deadline.Deadline) :
    deadline.ToTimespec dl = ((deadline.ToTimespec dl).1, none) := by
  unfold deadline.ToTimespec
  rcases dl.Deadline with ⟨t, ok⟩
  cases ok <;> cases hz : t.IsZero <;> simp [hz, unix.TimeToTimespec, unix.setTimespec]

/-- What `RawGetSetAttributes` does: one kernel call; it returns the record
the kernel stored and the code sent through the taxonomy. -/
theorem rawGetSetAttributes_eq (mqd : Int) (newAttr : Option Attributes) (w : World) :
    RawGetSetAttributes mqd newAttr w =
      ((w.attrOut w.trace (getSetAttrCall mqd newAttr),
        sysGetSetAttr.errs.Get (w.kernel w.trace (getSetAttrCall mqd newAttr)).en),
       { w with trace := w.trace ++ [getSetAttrCall mqd newAttr] }) := by
  rfl

/-- What `RawSendReceive` does in send mode on a non-empty buffer. -/
theorem rawSend_eq (mqd : Int) (dl : deadline.Deadline) (buf : List Byte) (p : Nat)
    (w : World) (hbuf : buf ≠ []) :
    RawSendReceive mqd dl buf (.uint p) w =
      (.ok (0, sysSend.errs.Get
          (w.kernel w.trace (sendCall mqd buf p (deadline.ToTimespec dl).1)).en),
       (buf, .uint p),
       { w with trace := w.trace ++ [sendCall mqd buf p (deadline.ToTimespec dl).1] }) := by
  have hlen : buf.length ≠ 0 := by simpa using hbuf
  unfold RawSendReceive
  rw [toTimespec_no_error dl]
  simp only [hlen, if_false]
  rfl

/-- What `RawSendReceive` does in receive mode on a non-empty buffer. -/
theorem rawRecv_eq (mqd : Int) (dl : deadline.Deadline) (buf : List Byte) (p : Nat)
    (w : World) (hbuf : buf ≠ []) :
    RawSendReceive mqd dl buf (.ptr p) w =
      (.ok (toInt (w.kernel w.trace (recvCall mqd buf p (deadline.ToTimespec dl).1)).r1,
            sysRecv.errs.Get
              (w.kernel w.trace (recvCall mqd buf p (deadline.ToTimespec dl).1)).en),
       (storeMessage buf (w.msgOut w.trace (recvCall mqd buf p (deadline.ToTimespec dl).1)).1,
        .ptr (w.msgOut w.trace (recvCall mqd buf p (deadline.ToTimespec dl).1)).2),
       { w with trace := w.trace ++ [recvCall mqd buf p (deadline.ToTimespec dl).1] }) := by
  have hlen : buf.length ≠ 0 := by simpa using hbuf
  unfold RawSendReceive
  rw [toTimespec_no_error dl]
  simp only [hlen, if_false]
  rfl

/-- C12: when the kernel answers the send call with `EAGAIN`, `RawSendReceive` in
send mode returns the typed error of kind `ErrSendFullQueue` and `MQ.Send`
returns that same error; when it answers the receive call with `EAGAIN`,
`RawSendReceive` in receive mode returns the typed error of kind
`ErrRecvEmptyQueue`. The two errors differ and `errors.Is` tells them apart,
although both kinds carry the code `EAGAIN`. -/
theorem eagain_send_full_recv_empty (mq : MQ) (dl : deadline.Deadline) (buf : List Byte)
    (p : Nat) (w : World) (hbuf : buf ≠ []) :
    ((w.kernel w.trace (sendCall mq.mqd buf p (deadline.ToTimespec dl).1)).en = unix.EAGAIN →
      (RawSendReceive mq.mqd dl buf (.uint p) w).1 =
        .ok (0, some (.typed { errno := ErrSendFullQueue })) ∧
      (mq.Send dl buf p w).1 = .ok (some (.typed { errno := ErrSendFullQueue })) ∧
      (mq.Send dl buf p w).2 = (RawSendReceive mq.mqd dl buf (.uint p) w).2.2) ∧
    ((w.kernel w.trace (recvCall mq.mqd buf p (deadline.ToTimespec dl).1)).en = unix.EAGAIN →
      (RawSendReceive mq.mqd dl buf (.ptr p) w).1 =
        .ok (toInt (w.kernel w.trace (recvCall mq.mqd buf p (deadline.ToTimespec dl).1)).r1,
             some (.typed { errno := ErrRecvEmptyQueue }))) ∧
    (GoError.typed { errno := ErrSendFullQueue } ≠ GoError.typed { errno := ErrRecvEmptyQueue } ∧
     hasKind (some (.typed { errno := ErrSendFullQueue })) ErrSendFullQueue ∧
     ¬ hasKind (some (.typed { errno := ErrSendFullQueue })) ErrRecvEmptyQueue ∧
     hasKind (some (.typed { errno := ErrRecvEmptyQueue })) ErrRecvEmptyQueue ∧
     ¬ hasKind (some (.typed { errno := ErrRecvEmptyQueue })) ErrSendFullQueue ∧
     ErrSendFullQueue.Errno = unix.EAGAIN ∧ ErrRecvEmptyQueue.Errno = unix.EAGAIN) := by
  refine ⟨fun h => ?_, fun h => ?_, by decide⟩
  · have hs := rawSend_eq mq.mqd dl buf p w hbuf
    rw [h] at hs
    refine ⟨by rw [hs]; rfl, ?_, ?_⟩
    · simp only [MQ.Send, hs]; rfl
    · simp only [MQ.Send, hs]
  · have hr := rawRecv_eq mq.mqd dl buf p w hbuf
    rw [hr, h]
    rfl

/-- Witness of C12: sending one byte and receiving into a four-byte buffer on
descriptor 7 in a world whose kernel answers both calls with `EAGAIN`. -/
theorem eagain_send_full_recv_empty_witness :
    (openHandle.Send .NoDeadline [1] 0 eagainWorld).1 =
      .ok (some (.typed { errno := ErrSendFullQueue })) ∧
    (RawSendReceive 7 .NoDeadline [0, 0, 0, 0] (.ptr 0) eagainWorld).1 =
      .ok (-1, some (.typed { errno := ErrRecvEmptyQueue })) :=
  ⟨((eagain_send_full_recv_empty openHandle .NoDeadline [1] 0 eagainWorld (by decide)).1 rfl).2.1,
   (eagain_send_full_recv_empty openHandle .NoDeadline [0, 0, 0, 0] 0 eagainWorld
      (by decide)).2.1 rfl⟩

/-- C15: `SetBlocking b` issues exactly one kernel call, the get/set-attributes
call whose second argument is the address of a new-attributes record with
flags 0 when `b` is true and the non-blocking bit when `b` is false, the other
three fields being zero, so the flags hold no bit outside the non-blocking
bit; `GetAttr` issues the call with a nil new-attributes pointer; both
return the record the kernel stored through the old-attributes pointer and
the error of the call. -/
theorem setBlocking_getAttr_calls (mq : MQ) (b : Bool) (w : World) :
    mq.SetBlocking b w =
      ((w.attrOut w.trace (setBlockingCall mq.mqd b),
        sysGetSetAttr.errs.Get (w.kernel w.trace (setBlockingCall mq.mqd b)).en),
       { w with trace := w.trace ++ [setBlockingCall mq.mqd b] }) ∧
    (setBlockingCall mq.mqd b).args =
      [.word (toUintptr mq.mqd),
       .attrPtr ⟨if b then 0 else 0x800, 0, 0, 0⟩,
       .attrPtr ⟨0, 0, 0, 0⟩] ∧
    intAnd (if b then 0 else 0x800) 0x800 = (if b then 0 else 0x800) ∧
    mq.GetAttr w =
      ((w.attrOut w.trace (getAttrCall mq.mqd),
        sysGetSetAttr.errs.Get (w.kernel w.trace (getAttrCall mq.mqd)).en),
       { w with trace := w.trace ++ [getAttrCall mq.mqd] }) ∧
    (getAttrCall mq.mqd).args =
      [.word (toUintptr mq.mqd), .word 0, .attrPtr ⟨0, 0, 0, 0⟩] ∧
    (setBlockingCall mq.mqd b).trap = unix.SYS_MQ_GETSETATTR ∧
    (getAttrCall mq.mqd).trap = unix.SYS_MQ_GETSETATTR := by
  refine ⟨?_, rfl, ?_, ?_, rfl, rfl, rfl⟩
  · cases b
    · simp only [MQ.SetBlocking, rawGetSetAttributes_eq]
      rfl
    · simp only [MQ.SetBlocking, rawGetSetAttributes_eq]
      rfl
  · cases b <;> decide
  · simp only [MQ.GetAttr, rawGetSetAttributes_eq]
    rfl

/-- The calls of `SetBlocking` and `GetAttr` on descriptor 7 in a world whose
kernel reports a queue of depth 10 with messages of at most 4 bytes. -/
theorem setBlocking_getAttr_calls_at_7 :
    (openHandle.SetBlocking false eagainWorld).2.trace =
      [⟨245, [.word 7, .attrPtr ⟨0x800, 0, 0, 0⟩, .attrPtr ⟨0, 0, 0, 0⟩]⟩] ∧
    (openHandle.SetBlocking true eagainWorld).2.trace =
      [⟨245, [.word 7, .attrPtr ⟨0, 0, 0, 0⟩, .attrPtr ⟨0, 0, 0, 0⟩]⟩] ∧
    (openHandle.GetAttr eagainWorld).2.trace =
      [⟨245, [.word 7, .word 0, .attrPtr ⟨0, 0, 0, 0⟩]⟩] ∧
    (openHandle.SetBlocking false eagainWorld).1 = (⟨0, 10, 4, 0⟩, none) := by
  refine ⟨by decide, by decide, by decide, by decide⟩

/-! ### Receive -/

/-- Storing a message keeps the length of the buffer. -/
theorem storeMessage_length (buf msg : List Byte) :
    (storeMessage buf msg).length = buf.length := by
  simp [storeMessage]
  omega

/-- What the receive call and the slice expression of `Receive` do on a
non-empty buffer: one kernel call; the result is the first `size` bytes of
the buffer when `size`, the value of the call, lies between 0 and the length
of the buffer, and a slice-bounds panic otherwise. -/
theorem receiveCall_eq (mq : MQ) (dl : deadline.Deadline) (w : World) (hbuf : mq.buf ≠ []) :
    MQ.receiveCall mq dl w =
      (if 0 ≤ toInt (w.kernel w.trace
              (recvCall mq.mqd mq.buf 0 (deadline.ToTimespec dl).1)).r1 ∧
            toInt (w.kernel w.trace
              (recvCall mq.mqd mq.buf 0 (deadline.ToTimespec dl).1)).r1 ≤ (mq.buf.length : Int)
        then
          .ok (some ((storeMessage mq.buf (w.msgOut w.trace
                  (recvCall mq.mqd mq.buf 0 (deadline.ToTimespec dl).1)).1).take
                (toInt (w.kernel w.trace
                  (recvCall mq.mqd mq.buf 0 (deadline.ToTimespec dl).1)).r1).toNat),
               (w.msgOut w.trace (recvCall mq.mqd mq.buf 0 (deadline.ToTimespec dl).1)).2,
               sysRecv.errs.Get (w.kernel w.trace
                  (recvCall mq.mqd mq.buf 0 (deadline.ToTimespec dl).1)).en)
        else .error .sliceBounds,
       { mq with buf := storeMessage mq.buf (w.msgOut w.trace
            (recvCall mq.mqd mq.buf 0 (deadline.ToTimespec dl).1)).1 },
       { w with trace := w.trace ++ [recvCall mq.mqd mq.buf 0 (deadline.ToTimespec dl).1] }) := by
  unfold MQ.receiveCall
  rw [rawRecv_eq mq.mqd dl mq.buf 0 w hbuf]
  simp only [storeMessage_length]
  split <;> rfl

/-- One `Receive` on a handle whose buffer is allocated: no attributes are
read, one receive call is issued on the buffer, and the descriptor and the
length of the buffer stay as they are. -/
theorem receive_allocated (mq : MQ) (dl : deadline.Deadline) (w : World) (hbuf : mq.buf ≠ []) :
    (mq.Receive dl w).2.1.mqd = mq.mqd ∧
    (mq.Receive dl w).2.1.buf.length = mq.buf.length ∧
    (mq.Receive dl w).2.2.trace =
      w.trace ++ [recvCall mq.mqd mq.buf 0 (deadline.ToTimespec dl).1] := by
  have hlen : mq.buf.length ≠ 0 := by simpa using hbuf
  unfold MQ.Receive
  simp only [hlen, if_false]
  rw [receiveCall_eq mq dl w hbuf]
  exact ⟨rfl, storeMessage_length _ _, rfl⟩

/-- Successive calls of `Receive` on a handle whose buffer is allocated issue
one receive call each, on a buffer of the same length. -/
theorem receiveAll_allocated (dls : List deadline.Deadline) : ∀ (mq : MQ) (w : World),
    mq.buf ≠ [] →
    (MQ.receiveAll dls mq w).1.buf.length = mq.buf.length ∧
    ∃ calls, (MQ.receiveAll dls mq w).2.trace = w.trace ++ calls ∧
      calls.length = dls.length ∧
      ∀ c ∈ calls, ∃ b t, c = recvCall mq.mqd b 0 t ∧ b.length = mq.buf.length := by
  induction dls with
  | nil => intro mq w _; exact ⟨rfl, [], by simp [MQ.receiveAll], rfl, by simp⟩
  | cons dl dls ih =>
    intro mq w hbuf
    obtain ⟨hmqd, hlen, htrace⟩ := receive_allocated mq dl w hbuf
    have hbuf' : (mq.Receive dl w).2.1.buf ≠ [] := by
      intro h
      rw [h] at hlen
      exact hbuf (List.length_eq_zero.mp hlen.symm)
    obtain ⟨h1, calls, h2, h3, h4⟩ := ih (mq.Receive dl w).2.1 (mq.Receive dl w).2.2 hbuf'
    have hstep : MQ.receiveAll (dl :: dls) mq w =
        MQ.receiveAll dls (mq.Receive dl w).2.1 (mq.Receive dl w).2.2 := by
      simp [MQ.receiveAll]
    rw [hstep]
    refine ⟨by rw [h1, hlen],
      recvCall mq.mqd mq.buf 0 (deadline.ToTimespec dl).1 :: calls, ?_, by simp [h3], ?_⟩
    · rw [h2, htrace]; simp
    · intro c hc
      rcases List.mem_cons.mp hc with rfl | hc
      · exact ⟨mq.buf, _, rfl, rfl⟩
      · obtain ⟨b, t, hb, hl⟩ := h4 c hc
        exact ⟨b, t, by rw [hb, hmqd], by rw [hl, hlen]⟩

/-- C11: `Receive` creates its buffer lazily and once. On a handle without
buffer it first issues the attributes call; when that call fails or reports
`MaxMessageSize <= 0` it returns a nil slice, priority 0 and an error, issues
no receive call and leaves the handle without buffer; otherwise the buffer
of the handle has exactly `MaxMessageSize` bytes and the receive call is
issued on it. On a handle with a buffer, any number of further calls of
`Receive` read no attributes and issue one receive call each, on a buffer of
the same length. -/
theorem receive_buffer_lazy_once (mq : MQ) (dl : deadline.Deadline) (w : World) :
    (mq.buf = [] →
      ((sysGetSetAttr.errs.Get (w.kernel w.trace (getSetAttrCall mq.mqd none)).en ≠ none ∨
          (w.attrOut w.trace (getSetAttrCall mq.mqd none)).MaxMessageSize ≤ 0) →
        ∃ e, mq.Receive dl w =
          (.ok (none, 0, some e), mq,
           { w with trace := w.trace ++ [getSetAttrCall mq.mqd none] })) ∧
      ((sysGetSetAttr.errs.Get (w.kernel w.trace (getSetAttrCall mq.mqd none)).en = none ∧
          0 < (w.attrOut w.trace (getSetAttrCall mq.mqd none)).MaxMessageSize) →
        ((mq.Receive dl w).2.1.buf.length : Int) =
          (w.attrOut w.trace (getSetAttrCall mq.mqd none)).MaxMessageSize ∧
        ∃ b, (b.length : Int) = (w.attrOut w.trace (getSetAttrCall mq.mqd none)).MaxMessageSize ∧
          (mq.Receive dl w).2.2.trace =
            w.trace ++ [getSetAttrCall mq.mqd none,
              recvCall mq.mqd b 0 (deadline.ToTimespec dl).1])) ∧
    (mq.buf ≠ [] → ∀ dls : List deadline.Deadline,
      (MQ.receiveAll dls mq w).1.buf.length = mq.buf.length ∧
      ∃ calls, (MQ.receiveAll dls mq w).2.trace = w.trace ++ calls ∧
        calls.length = dls.length ∧
        ∀ c ∈ calls, c.trap = unix.SYS_MQ_TIMEDRECEIVE ∧
          ∃ b t, c = recvCall mq.mqd b 0 t ∧ b.length = mq.buf.length) := by
  refine ⟨fun hnil => ⟨fun hfail => ?_, fun hok => ?_⟩, fun hbuf dls => ?_⟩
  · have hg := rawGetSetAttributes_eq mq.mqd none w
    unfold MQ.Receive MQ.GetAttr
    rw [hg]
    simp only [hnil, List.length_nil, if_true]
    cases herr : sysGetSetAttr.errs.Get (w.kernel w.trace (getSetAttrCall mq.mqd none)).en with
    | some e => exact ⟨_, rfl⟩
    | none =>
      rcases hfail with h | h
      · exact absurd herr h
      · simp only [h, if_true]
        exact ⟨_, rfl⟩
  · obtain ⟨herr, hpos⟩ := hok
    have hg := rawGetSetAttributes_eq mq.mqd none w
    have hR : ∀ M : Int, (w.attrOut w.trace (getSetAttrCall mq.mqd none)).MaxMessageSize = M →
        mq.Receive dl w = MQ.receiveCall { mq with buf := List.replicate M.toNat 0 } dl
          { w with trace := w.trace ++ [getSetAttrCall mq.mqd none] } := by
      intro M hM
      have hnpos : ¬ M ≤ 0 := by omega
      unfold MQ.Receive MQ.GetAttr
      rw [hg]
      simp only [hnil, List.length_nil, if_true, herr, hM, hnpos, if_false]
    generalize hM : (w.attrOut w.trace (getSetAttrCall mq.mqd none)).MaxMessageSize = M at hpos
    have hb : ({ mq with buf := List.replicate M.toNat 0 } : MQ).buf ≠ [] := by
      intro h
      have := congrArg List.length h
      simp at this
      omega
    rw [hR M hM, receiveCall_eq _ dl _ hb]
    refine ⟨?_, List.replicate M.toNat 0, ?_, ?_⟩
    · simp only [storeMessage_length, List.length_replicate]
      omega
    · simp only [List.length_replicate]
      omega
    · simp
  · obtain ⟨h1, calls, h2, h3, h4⟩ := receiveAll_allocated dls mq w hbuf
    refine ⟨h1, calls, h2, h3, fun c hc => ?_⟩
    obtain ⟨b, t, hb, hl⟩ := h4 c hc
    exact ⟨by rw [hb]; rfl, b, t, hb, hl⟩

/-! ### Option processing -/

/-- Converting to a word and back to `int` and to a word again. -/
theorem toUintptr_toInt (n : Nat) : toUintptr (toInt n) = n % 2 ^ 64 := by
  unfold toUintptr toInt
  split <;> omega

/-- A word is below `2 ^ 64`. -/
theorem toUintptr_lt (x : Int) : toUintptr x < 2 ^ 64 := by
  unfold toUintptr; omega

/-- After `x | c` every bit of `c` is set. -/
theorem intAnd_intOr_self (x c : Int) : intAnd (intOr x c) c = toInt (toUintptr c) := by
  have hbits : ∀ a b : Nat, (a ||| b) &&& b = b := by
    intro a b
    apply Nat.eq_of_testBit_eq
    intro i
    simp only [Nat.testBit_and, Nat.testBit_or]
    cases a.testBit i <;> cases b.testBit i <;> rfl
  unfold intAnd intOr
  rw [toUintptr_toInt]
  have h : (toUintptr x ||| toUintptr c) < 2 ^ 64 :=
    Nat.or_lt_two_pow (toUintptr_lt x) (toUintptr_lt c)
  rw [Nat.mod_eq_of_lt h, hbits]

/-- After `oflag |= OpenCreate` the create flag is set. -/
theorem intAnd_intOr_create (x : Int) : intAnd (intOr x OpenCreate) OpenCreate = OpenCreate := by
  rw [intAnd_intOr_self]; decide

/-- The three branches of `applyAll`, in terms of the handle `m0` that the
options leave: attributes supplied; no attributes and the create flag; no
attributes and no create flag. -/
theorem applyAll_cases (mq : MQ) (opts : List MQOption) (w : World) (m0 : MQ)
    (hm0 : m0 = appliedOptions mq opts) :
    (m0.attr ≠ none →
      mq.applyAll opts w =
        (({ m0 with
            oflag := if intAnd m0.oflag OpenCreate = OpenCreate then m0.oflag
                     else intOr m0.oflag OpenCreate
            mode := if m0.mode = 0 then 0o644 else m0.mode }, none), w)) ∧
    (m0.attr = none → intAnd m0.oflag OpenCreate = OpenCreate →
      mq.applyAll opts w =
        match errorsJoin (DefaultQueueSize w).1.2
            (DefaultMessageSize (DefaultQueueSize w).2).1.2 with
        | some err =>
          (({ m0 with mode := if m0.mode = 0 then 0o644 else m0.mode }, some err),
           (DefaultMessageSize (DefaultQueueSize w).2).2)
        | none =>
          (({ m0 with
              mode := if m0.mode = 0 then 0o644 else m0.mode
              attr := some ⟨0, (DefaultQueueSize w).1.1,
                (DefaultMessageSize (DefaultQueueSize w).2).1.1, 0⟩ }, none),
           (DefaultMessageSize (DefaultQueueSize w).2).2)) ∧
    (m0.attr = none → intAnd m0.oflag OpenCreate ≠ OpenCreate →
      mq.applyAll opts w = (({ m0 with mode := 0, attr := none }, none), w)) := by
  have hloop : mq.applyAll opts w = m0.applyAll [] w := by rw [hm0]; rfl
  rw [hloop]
  clear hloop hm0
  unfold MQ.applyAll
  simp only [List.foldl_nil]
  refine ⟨fun ha => ?_, fun ha hc => ?_, fun ha hc => ?_⟩
  · by_cases hc : intAnd m0.oflag OpenCreate = OpenCreate
    · by_cases hmode : m0.mode = 0 <;> simp [ha, hc, hmode]
    · by_cases hmode : m0.mode = 0 <;> simp [ha, hc, hmode, intAnd_intOr_create]
  · obtain ⟨name, bname, attr, mode, oflag, mqd, buf, close, unlink⟩ := m0
    simp only at ha hc
    subst ha
    simp only [ne_eq, not_true_eq_false, false_and, if_false, if_pos hc]
    by_cases hmode : mode = 0
    · simp only [hmode, if_true]
    · simp only [hmode, if_false, if_true]
  · simp [ha, hc]

/-- Options that only set the flags leave the attributes and the mode alone. -/
theorem appliedOptions_oflag_only (post : List MQOption) : ∀ m : MQ,
    (∀ o ∈ post, ∃ f, o = OptionOflag f) →
    (appliedOptions m post).attr = m.attr ∧ (appliedOptions m post).mode = m.mode := by
  induction post with
  | nil => intro m _; exact ⟨rfl, rfl⟩
  | cons o post ih =>
    intro m h
    obtain ⟨f, rfl⟩ := h o (by simp)
    have := ih (MQOption.applyOption (OptionOflag f) m) (fun o ho => h o (by simp [ho]))
    simpa [appliedOptions, MQOption.applyOption, OptionOflag] using this

/-- The attributes and the mode after the options are those of the last
`OptionCreateArgs`. -/
theorem appliedOptions_last_createArgs (mq : MQ) (pre post : List MQOption) (mode M Q : Int)
    (hpost : ∀ o ∈ post, ∃ f, o = OptionOflag f) :
    (appliedOptions mq (pre ++ OptionCreateArgs mode M Q :: post)).attr = some ⟨0, Q, M, 0⟩ ∧
    (appliedOptions mq (pre ++ OptionCreateArgs mode M Q :: post)).mode = mode := by
  have h := appliedOptions_oflag_only post
    (MQOption.applyOption (OptionCreateArgs mode M Q) (appliedOptions mq pre)) hpost
  have hsplit : appliedOptions mq (pre ++ OptionCreateArgs mode M Q :: post) =
      appliedOptions (MQOption.applyOption (OptionCreateArgs mode M Q) (appliedOptions mq pre))
        post := by
    simp [appliedOptions, List.foldl_append]
  rw [hsplit, h.1, h.2]
  exact ⟨rfl, rfl⟩

/-- What `rawOpen` does: one kernel call with the name, the flags, the mode
and the attributes. -/
theorem rawOpen_trace (name : Option (List Byte)) (oflag mode : Int) (attr : Option Attributes)
    (w : World) :
    (rawOpen name oflag mode attr w).2.trace = w.trace ++ [openCall name oflag mode attr] := by
  rfl

/-- The two lookups of the system defaults. -/
theorem defaults_reads (w : World) :
    (DefaultMessageSize (DefaultQueueSize w).2).2 =
      { w with reads := w.reads ++
          ["/proc/sys/fs/mqueue/msq_default", "/proc/sys/fs/mqueue/msqsize_default"] } := by
  unfold DefaultMessageSize DefaultQueueSize sizeFromFile
  simp only
  split <;> split <;> simp [World.mk.injEq]

/-- C13 (counterexample): with the single option `OptionCreateArgs(0644, 8, 4)`
the caller's flags are 0 and do not include create, yet the creation
arguments are not ignored: `applyAll` adds the create flag and keeps mode
0644 and the attributes, and `New` hands all three to the open call. -/
theorem createArgs_without_create_flag_are_used :
    intAnd (appliedOptions blankHandle [OptionCreateArgs 0o644 8 4]).oflag OpenCreate
      ≠ OpenCreate ∧
    (blankHandle.applyAll [OptionCreateArgs 0o644 8 4] quietWorld).1 =
      ({ blankHandle with oflag := OpenCreate, mode := 0o644, attr := some ⟨0, 4, 8, 0⟩ },
       none) ∧
    ¬ (intAnd (blankHandle.applyAll [OptionCreateArgs 0o644 8 4] quietWorld).1.1.oflag
          OpenCreate ≠ OpenCreate ∧
       (blankHandle.applyAll [OptionCreateArgs 0o644 8 4] quietWorld).1.1.mode = 0 ∧
       (blankHandle.applyAll [OptionCreateArgs 0o644 8 4] quietWorld).1.1.attr = none) ∧
    (New [47, 113] [OptionCreateArgs 0o644 8 4] quietWorld).2.trace =
      [openCall (some [113, 0]) OpenCreate 0o644 (some ⟨0, 4, 8, 0⟩)] := by
  refine ⟨by decide, by decide, by decide, rfl⟩

/-- C13 (amended): the branching of `applyAll`, for the caller's flags and
attributes as the options leave them. With the create flag and no
attributes, both system defaults are read (queue depth, then message size),
the error is the join of the two lookup errors, a non-nil error makes `New`
return it without opening, and otherwise the attributes are the two
defaults. Without the create flag and without attributes, the handle keeps
its flags, gets mode 0 and no attributes, and nothing is read. Without the
create flag but with attributes, the create flag is added and the supplied
attributes and mode (0644 for mode 0) are kept. -/
theorem applyAll_branching (mq : MQ) (opts : List MQOption) (w : World) :
    ((appliedOptions mq opts).attr = none →
      intAnd (appliedOptions mq opts).oflag OpenCreate = OpenCreate →
      (mq.applyAll opts w).2 =
        { w with reads := w.reads ++
            ["/proc/sys/fs/mqueue/msq_default", "/proc/sys/fs/mqueue/msqsize_default"] } ∧
      (mq.applyAll opts w).1.2 =
        errorsJoin (DefaultQueueSize w).1.2 (DefaultMessageSize (DefaultQueueSize w).2).1.2 ∧
      ((mq.applyAll opts w).1.2 = none →
        (mq.applyAll opts w).1.1.attr =
          some ⟨0, (DefaultQueueSize w).1.1,
            (DefaultMessageSize (DefaultQueueSize w).2).1.1, 0⟩ ∧
        (mq.applyAll opts w).1.1.oflag = (appliedOptions mq opts).oflag)) ∧
    (∀ name bn err,
      namePtrFromString name = (bn, none) →
      ((initialHandle name bn).applyAll opts w).1.2 = some err →
      (New name opts w).1 = (none, some err) ∧ (New name opts w).2.trace = w.trace) ∧
    ((appliedOptions mq opts).attr = none →
      intAnd (appliedOptions mq opts).oflag OpenCreate ≠ OpenCreate →
      mq.applyAll opts w =
        (({ appliedOptions mq opts with mode := 0, attr := none }, none), w)) ∧
    (∀ a, (appliedOptions mq opts).attr = some a →
      intAnd (appliedOptions mq opts).oflag OpenCreate ≠ OpenCreate →
      mq.applyAll opts w =
        (({ appliedOptions mq opts with
            oflag := intOr (appliedOptions mq opts).oflag OpenCreate
            mode := if (appliedOptions mq opts).mode = 0 then 0o644
                    else (appliedOptions mq opts).mode }, none), w) ∧
      intAnd (intOr (appliedOptions mq opts).oflag OpenCreate) OpenCreate = OpenCreate) := by
  obtain ⟨hA, hB, hC⟩ := applyAll_cases mq opts w (appliedOptions mq opts) rfl
  refine ⟨fun ha hc => ?_, fun name bn err hp herr => ?_, fun ha hc => hC ha hc,
    fun a ha hc => ?_⟩
  · have h := hB ha hc
    rw [h]
    cases hj : errorsJoin (DefaultQueueSize w).1.2
        (DefaultMessageSize (DefaultQueueSize w).2).1.2 with
    | some e => exact ⟨defaults_reads w, rfl, fun h' => by simp at h'⟩
    | none => exact ⟨defaults_reads w, rfl, fun _ => ⟨rfl, rfl⟩⟩
  · have htr : ∀ (m : MQ), (m.applyAll opts w).2.trace = w.trace := by
      intro m
      obtain ⟨hA', hB', hC'⟩ := applyAll_cases m opts w (appliedOptions m opts) rfl
      cases hat : (appliedOptions m opts).attr with
      | some a => rw [hA' (by simp [hat])]
      | none =>
        by_cases hc : intAnd (appliedOptions m opts).oflag OpenCreate = OpenCreate
        · rw [hB' hat hc]
          split <;> simp only [defaults_reads]
        · rw [hC' hat hc]
    generalize hres : (initialHandle name bn).applyAll opts w = res at herr
    have htr' := htr (initialHandle name bn)
    rw [hres] at htr'
    obtain ⟨⟨m', e'⟩, w'⟩ := res
    simp only at herr htr'
    subst herr
    unfold initialHandle at hres
    have hN : New name opts w = ((none, some err), w') := by
      simp only [New, hp, hres]
    rw [hN]
    exact ⟨rfl, htr'⟩
  · have h := hA (by simp [ha])
    refine ⟨?_, intAnd_intOr_create _⟩
    rw [h]
    simp only [hc, if_false]

/-- Witness of C13 (amended): the create flag without attributes in a world
where both lookups fail gives the join of both errors, and `New` returns it
without entering the kernel. -/
theorem applyAll_branching_witness :
    (blankHandle.applyAll [OptionOflag OpenCreate] noProcWorld).1.2 =
      some (.join2 (.errno unix.ENOENT) (.errno unix.ENOENT)) ∧
    (New [47, 113] [OptionOflag OpenCreate] noProcWorld).1 =
      (none, some (.join2 (.errno unix.ENOENT) (.errno unix.ENOENT))) ∧
    (New [47, 113] [OptionOflag OpenCreate] noProcWorld).2.trace = [] :=
  have h := applyAll_branching blankHandle [OptionOflag OpenCreate] noProcWorld
  have h1 := ((h.1 rfl (by decide)).2.1 : _ = _)
  have h2 := h.2.1 [47, 113] (some [113, 0]) (.join2 (.errno unix.ENOENT) (.errno unix.ENOENT))
    rfl (by rw [show initialHandle [47, 113] (some [113, 0]) = blankHandle from rfl, h1]; rfl)
  ⟨by rw [h1]; rfl, h2.1, h2.2⟩

/-- C14: after a successful `applyAll`, for every list of options, the create
flag is set in `Oflag()` if and only if attributes are present; when it is
set, `Mode()` is non-zero, namely the mode the options left or 0644 when that
was 0; when the last `OptionCreateArgs(mode, M, Q)` of the list is followed by
flag options only, the create flag is set, the attributes are exactly
`{0, Q, M, 0}` and `Mode()` is `mode`, or 0644 for mode 0; when the create flag
is not set, `Mode()` is 0 and the attributes are nil. These flags, mode and
attributes are what `open` hands to the open call. -/
theorem applyAll_consistent (mq : MQ) (opts : List MQOption) (w : World) (mq' : MQ)
    (w' : World) (h : mq.applyAll opts w = ((mq', none), w')) :
    (intAnd mq'.Oflag OpenCreate = OpenCreate ↔ mq'.attr ≠ none) ∧
    (intAnd mq'.Oflag OpenCreate = OpenCreate →
      mq'.Mode ≠ 0 ∧
      mq'.Mode = if (appliedOptions mq opts).mode = 0 then 0o644
                 else (appliedOptions mq opts).mode) ∧
    (∀ pre post mode M Q, opts = pre ++ OptionCreateArgs mode M Q :: post →
      (∀ o ∈ post, ∃ f, o = OptionOflag f) →
      intAnd mq'.Oflag OpenCreate = OpenCreate ∧
      mq'.attr = some ⟨0, Q, M, 0⟩ ∧
      mq'.Mode = if mode = 0 then 0o644 else mode) ∧
    (intAnd mq'.Oflag OpenCreate ≠ OpenCreate → mq'.Mode = 0 ∧ mq'.attr = none) ∧
    (mq'.open w').2.trace = w'.trace ++ [openCall mq'.bname mq'.Oflag mq'.Mode mq'.attr] := by
  obtain ⟨hA, hB, hC⟩ := applyAll_cases mq opts w (appliedOptions mq opts) rfl
  have hmode : ∀ m : Int, (if m = 0 then (0o644 : Int) else m) ≠ 0 := by
    intro m; split <;> omega
  have hopen : (mq'.open w').2.trace =
      w'.trace ++ [openCall mq'.bname mq'.Oflag mq'.Mode mq'.attr] := by
    have := rawOpen_trace mq'.bname mq'.oflag mq'.mode mq'.attr w'
    unfold MQ.open
    rcases hro : rawOpen mq'.bname mq'.oflag mq'.mode mq'.attr w' with ⟨⟨mqd, _ | e⟩, w2⟩ <;>
      (rw [hro] at this; simpa [MQ.Oflag, MQ.Mode] using this)
  -- the three shapes of the result
  have key : (intAnd mq'.oflag OpenCreate = OpenCreate ∧ mq'.attr ≠ none ∧
        mq'.mode = (if (appliedOptions mq opts).mode = 0 then 0o644
                    else (appliedOptions mq opts).mode) ∧
        ((appliedOptions mq opts).attr ≠ none → mq'.attr = (appliedOptions mq opts).attr)) ∨
      (intAnd mq'.oflag OpenCreate ≠ OpenCreate ∧ mq'.attr = none ∧ mq'.mode = 0 ∧
        (appliedOptions mq opts).attr = none) := by
    cases hat : (appliedOptions mq opts).attr with
    | some a =>
      have h1 := hA (by simp [hat])
      rw [h1] at h
      simp only [Prod.mk.injEq, and_true, true_and] at h
      obtain ⟨h, _⟩ := h
      subst h
      left
      refine ⟨?_, by simp [hat], rfl, fun _ => hat⟩
      by_cases hc : intAnd (appliedOptions mq opts).oflag OpenCreate = OpenCreate
      · simp [hc]
      · simp [hc, intAnd_intOr_create]
    | none =>
      by_cases hc : intAnd (appliedOptions mq opts).oflag OpenCreate = OpenCreate
      · have h1 := hB hat hc
        rw [h1] at h
        cases hj : errorsJoin (DefaultQueueSize w).1.2
            (DefaultMessageSize (DefaultQueueSize w).2).1.2 with
        | some e => rw [hj] at h; simp at h
        | none =>
          rw [hj] at h
          simp only [Prod.mk.injEq, and_true, true_and] at h
          obtain ⟨h, _⟩ := h
          subst h
          left
          exact ⟨hc, by simp, rfl, fun hne => absurd rfl hne⟩
      · have h1 := hC hat hc
        rw [h1] at h
        simp only [Prod.mk.injEq, and_true, true_and] at h
        obtain ⟨h, _⟩ := h
        subst h
        right
        exact ⟨hc, rfl, rfl, rfl⟩
  refine ⟨?_, ?_, ?_, ?_, hopen⟩
  · rcases key with ⟨h1, h2, _, _⟩ | ⟨h1, h2, _, _⟩
    · exact ⟨fun _ => h2, fun _ => h1⟩
    · exact ⟨fun hc => absurd hc h1, fun hn => absurd h2 hn⟩
  · intro hc
    rcases key with ⟨_, _, h3, _⟩ | ⟨h1, _, _, _⟩
    · exact ⟨by rw [MQ.Mode, h3]; exact hmode _, h3⟩
    · exact absurd hc h1
  · intro pre post mode M Q hopts hpost
    have hl := appliedOptions_last_createArgs mq pre post mode M Q hpost
    rw [← hopts] at hl
    rcases key with ⟨h1, _, h3, h4⟩ | ⟨_, _, _, h4⟩
    · refine ⟨h1, ?_, ?_⟩
      · rw [h4 (by simp [hl.1]), hl.1]
      · rw [MQ.Mode, h3, hl.2]
    · rw [hl.1] at h4
      cases h4
  · intro hc
    rcases key with ⟨h1, _, _, _⟩ | ⟨_, h2, h3, _⟩
    · exact absurd h1 hc
    · exact ⟨h3, h2⟩

/-- Witness of C14: `OptionCreateArgs(0, 8, 4)` followed by a flags option for
write-only. -/
theorem applyAll_consistent_witness :
    blankHandle.applyAll [OptionCreateArgs 0 8 4, OptionOflag OpenWriteOnly] quietWorld =
      (({ blankHandle with oflag := 0x41, mode := 0o644, attr := some ⟨0, 4, 8, 0⟩ }, none),
        quietWorld) ∧
    intAnd (MQ.Oflag { blankHandle with oflag := 0x41, mode := 0o644,
                                          attr := some ⟨0, 4, 8, 0⟩ }) OpenCreate = OpenCreate ∧
    MQ.attr { blankHandle with oflag := 0x41, mode := 0o644, attr := some ⟨0, 4, 8, 0⟩ } =
      some ⟨0, 4, 8, 0⟩ ∧
    MQ.Mode { blankHandle with oflag := 0x41, mode := 0o644, attr := some ⟨0, 4, 8, 0⟩ } =
      0o644 :=
  have h : blankHandle.applyAll [OptionCreateArgs 0 8 4, OptionOflag OpenWriteOnly] quietWorld =
      (({ blankHandle with oflag := 0x41, mode := 0o644, attr := some ⟨0, 4, 8, 0⟩ }, none),
        quietWorld) := rfl
  ⟨h, (applyAll_consistent _ _ _ _ _ h).2.2.1 [] [OptionOflag OpenWriteOnly] 0 8 4 rfl
    (fun o ho => ⟨OpenWriteOnly, by simpa using ho⟩)⟩

/-! ### Receive: evaluations -/

/-- Witness of C11: on the fresh handle for "/q", in a world whose queue has
messages of at most 4 bytes and delivers the message 5, 6, the first
`Receive` allocates 4 bytes and returns the two bytes with priority 3; two
further calls keep the length. -/
theorem receive_buffer_lazy_once_witness :
    ((openHandle.Receive .NoDeadline deliveringWorld).2.1.buf.length : Int) = 4 ∧
    (openHandle.Receive .NoDeadline deliveringWorld).1 = .ok (some [5, 6], 3, none) ∧
    (MQ.receiveAll [.NoDeadline, .NoDeadline]
        (openHandle.Receive .NoDeadline deliveringWorld).2.1
        (openHandle.Receive .NoDeadline deliveringWorld).2.2).1.buf.length = 4 :=
  have h := receive_buffer_lazy_once openHandle .NoDeadline deliveringWorld
  ⟨((h.1 rfl).2 ⟨rfl, by decide⟩).1,
   rfl,
   ((receive_buffer_lazy_once (openHandle.Receive .NoDeadline deliveringWorld).2.1 .NoDeadline
      (openHandle.Receive .NoDeadline deliveringWorld).2.2).2 (by decide)
      [.NoDeadline, .NoDeadline]).1⟩

/-- C16 (failing input): when the kernel fails the receive call with `EAGAIN`,
the value of the call is -1 and `Receive` panics in the slice expression
`mq.buf[:size]` instead of returning the error, on the first call (which
allocates the buffer) as on a handle whose buffer exists. -/
theorem receive_panics_when_call_fails :
    RawSendReceive 7 .NoDeadline [0, 0, 0, 0] (.ptr 0) eagainWorld =
      (.ok (-1, some (.typed { errno := ErrRecvEmptyQueue })),
       ([0, 0, 0, 0], .ptr 0),
       { eagainWorld with trace := [recvCall 7 [0, 0, 0, 0] 0 none] }) ∧
    (openHandle.Receive .NoDeadline eagainWorld).1 = .error .sliceBounds ∧
    (MQ.Receive { openHandle with buf := [0, 0, 0, 0] } .NoDeadline eagainWorld).1 =
      .error .sliceBounds := by
  refine ⟨rfl, rfl, rfl⟩

/-- The result of `Receive` on a handle whose buffer exists: it returns
normally exactly when the value of the receive call lies between 0 and the
length of the buffer, and then the data are the first bytes of the buffer,
as many as that value. -/
theorem receive_returns_iff_in_bounds (mq : MQ) (dl : deadline.Deadline) (w : World)
    (hbuf : mq.buf ≠ []) :
    ((∃ r, (mq.Receive dl w).1 = .ok r) ↔
      (0 ≤ toInt (w.kernel w.trace (recvCall mq.mqd mq.buf 0 (deadline.ToTimespec dl).1)).r1 ∧
       toInt (w.kernel w.trace (recvCall mq.mqd mq.buf 0 (deadline.ToTimespec dl).1)).r1 ≤
         (mq.buf.length : Int))) ∧
    (∀ data prio err, (mq.Receive dl w).1 = .ok (data, prio, err) →
      data = some ((mq.Receive dl w).2.1.buf.take
        (toInt (w.kernel w.trace
          (recvCall mq.mqd mq.buf 0 (deadline.ToTimespec dl).1)).r1).toNat) ∧
      err = sysRecv.errs.Get
        (w.kernel w.trace (recvCall mq.mqd mq.buf 0 (deadline.ToTimespec dl).1)).en) := by
  have hlen : mq.buf.length ≠ 0 := by simpa using hbuf
  have hR : mq.Receive dl w = MQ.receiveCall mq dl w := by
    unfold MQ.Receive
    simp only [hlen, if_false]
  rw [hR, receiveCall_eq mq dl w hbuf]
  by_cases hb : 0 ≤ toInt (w.kernel w.trace
      (recvCall mq.mqd mq.buf 0 (deadline.ToTimespec dl).1)).r1 ∧
      toInt (w.kernel w.trace (recvCall mq.mqd mq.buf 0 (deadline.ToTimespec dl).1)).r1 ≤
        (mq.buf.length : Int)
  · simp only [hb, and_self, if_true, iff_true]
    refine ⟨⟨_, rfl⟩, ?_⟩
    intro data prio err h
    simp only [Except.ok.injEq, Prod.mk.injEq] at h
    exact ⟨h.1.symm, h.2.2.symm⟩
  · simp only [hb, if_false, iff_false]
    refine ⟨?_, ?_⟩
    · rintro ⟨r, hr⟩
      cases hr
    · intro data prio err h
      cases h

/-! ### Printing the open flags -/

/-- The sorted slice does not depend on the order in which the map is visited. -/
theorem flagStrings_perm (entries : List (Int × String)) (f : Int)
    (hperm : entries.Perm openFlagValueMap) :
    OpenFlag.flagStrings entries f = OpenFlag.flagStrings openFlagValueMap f := by
  unfold OpenFlag.flagStrings
  have h1 : ((entries.filter (fun e => intAnd f e.1 = e.1)).map (·.2)).Perm
      ((openFlagValueMap.filter (fun e => intAnd f e.1 = e.1)).map (·.2)) :=
    (hperm.filter _).map _
  apply List.eq_of_perm_of_sorted (r := goStringLE)
  · refine ((List.perm_insertionSort _ _).trans ?_).trans (List.perm_insertionSort _ _).symm
    split
    · exact h1.append_right _
    · exact h1
  · exact List.sorted_insertionSort _ _
  · exact List.sorted_insertionSort _ _

/-- Which names the sorted slice holds. -/
theorem mem_flagStrings (f : Int) (name : String) :
    name ∈ OpenFlag.flagStrings openFlagValueMap f ↔
      ((∃ v, (v, name) ∈ openFlagValueMap ∧ intAnd f v = v) ∨
       (name = "O_RDONLY" ∧ intAnd f OpenWriteOnly ≠ OpenWriteOnly ∧
         intAnd f OpenReadWrite ≠ OpenReadWrite)) := by
  unfold OpenFlag.flagStrings
  rw [(List.perm_insertionSort _ _).mem_iff]
  have hm : name ∈ (openFlagValueMap.filter (fun e => intAnd f e.1 = e.1)).map (·.2) ↔
      ∃ v, (v, name) ∈ openFlagValueMap ∧ intAnd f v = v := by
    simp only [List.mem_map, List.mem_filter, decide_eq_true_eq]
    constructor
    · rintro ⟨⟨v, n⟩, ⟨hmem, hv⟩, rfl⟩
      exact ⟨v, hmem, hv⟩
    · rintro ⟨v, hmem, hv⟩
      exact ⟨(v, name), ⟨hmem, hv⟩, rfl⟩
  split
  · rename_i hn
    rw [List.mem_append, hm]
    simp [hn]
  · rename_i hn
    rw [hm]
    constructor
    · exact fun h => Or.inl h
    · rintro (h | ⟨_, h⟩)
      · exact h
      · exact absurd h hn

/-- The sorted slice holds no name twice. -/
theorem flagStrings_nodup (f : Int) : (OpenFlag.flagStrings openFlagValueMap f).Nodup := by
  unfold OpenFlag.flagStrings
  rw [(List.perm_insertionSort _ _).nodup_iff]
  have hsub : ((openFlagValueMap.filter (fun e => intAnd f e.1 = e.1)).map (·.2)).Sublist
      (openFlagValueMap.map (·.2)) := (List.filter_sublist _).map _
  have hnd : (openFlagValueMap.map (·.2)).Nodup := by decide
  have hnot : "O_RDONLY" ∉ openFlagValueMap.map (·.2) := by decide
  split
  · refine List.Nodup.append (hnd.sublist hsub) (by simp) ?_
    intro x hx hx'
    simp only [List.mem_singleton] at hx'
    subst hx'
    exact hnot (hsub.subset hx)
  · exact hnd.sublist hsub

/-- C17 (counterexample): the value 3 has both write flags set and its string
names two directions, `O_RDWR` and `O_WRONLY`. -/
theorem openFlag_string_names_two_directions :
    OpenFlag.String 3 = "O_RDWR|O_WRONLY" ∧
    ((OpenFlag.flagStrings openFlagValueMap 3).filter (· ∈ directionNames)).length = 2 := by
  decide

/-- C17 (amended): for every flag value `f`, `f.String()` does not depend on the
order in which the map is visited; it is the '|'-joined list, ascending and
without repetition, of names; it lists `O_WRONLY`, `O_RDWR`, `O_CLOEXEC`,
`O_CREAT` and `O_NONBLOCK` each exactly when that flag is set in `f`, and
`O_RDONLY` exactly when neither write flag is set; a name other than these
six is listed only when `O_EXCL` is set in `f`. Hence it names at least one
direction, and both `O_WRONLY` and `O_RDWR` when both write flags are set.
`DefaultOpenFlags` prints as "O_CLOEXEC|O_RDONLY". -/
theorem openFlag_string_sorted_names (f : Int) :
    (∀ entries : List (Int × String), entries.Perm openFlagValueMap →
      OpenFlag.stringIn entries f = OpenFlag.String f) ∧
    OpenFlag.String f = "|".intercalate (OpenFlag.flagStrings openFlagValueMap f) ∧
    (OpenFlag.flagStrings openFlagValueMap f).Sorted goStringLE ∧
    (OpenFlag.flagStrings openFlagValueMap f).Nodup ∧
    (∀ p ∈ flagNameTable,
      (p.2 ∈ OpenFlag.flagStrings openFlagValueMap f ↔ intAnd f p.1 = p.1)) ∧
    ("O_RDONLY" ∈ OpenFlag.flagStrings openFlagValueMap f ↔
      (intAnd f 0x1 ≠ 0x1 ∧ intAnd f 0x2 ≠ 0x2)) ∧
    (∀ name ∈ OpenFlag.flagStrings openFlagValueMap f,
      name = "O_RDONLY" ∨ (∃ v, (v, name) ∈ flagNameTable) ∨ intAnd f 0x80 = 0x80) ∧
    (∃ d ∈ directionNames, d ∈ OpenFlag.flagStrings openFlagValueMap f) ∧
    (intAnd f 0x1 = 0x1 → intAnd f 0x2 = 0x2 →
      "O_WRONLY" ∈ OpenFlag.flagStrings openFlagValueMap f ∧
      "O_RDWR" ∈ OpenFlag.flagStrings openFlagValueMap f) ∧
    OpenFlag.String DefaultOpenFlags = "O_CLOEXEC|O_RDONLY" := by
  have hro : "O_RDONLY" ∈ OpenFlag.flagStrings openFlagValueMap f ↔
      (intAnd f 0x1 ≠ 0x1 ∧ intAnd f 0x2 ≠ 0x2) := by
    rw [mem_flagStrings]
    simp [openFlagValueMap, OpenWriteOnly, OpenReadWrite, unix.O_WRONLY, unix.O_RDWR]
  have htab : ∀ p ∈ flagNameTable,
      (p.2 ∈ OpenFlag.flagStrings openFlagValueMap f ↔ intAnd f p.1 = p.1) := by
    intro p hp
    simp only [flagNameTable, List.mem_cons, List.mem_singleton, List.not_mem_nil,
      or_false] at hp
    rcases hp with rfl | rfl | rfl | rfl | rfl <;>
      (rw [mem_flagStrings]
       simp [openFlagValueMap, OpenWriteOnly, OpenReadWrite, OpenCloseOnExec, OpenCreate,
         OpenExclusive, OpenNonBlocking, unix.O_WRONLY, unix.O_RDWR, unix.O_CLOEXEC,
         unix.O_CREAT, unix.O_EXCL, unix.O_NONBLOCK])
  have hwo := htab (0x1, "O_WRONLY") (by decide)
  have hrw := htab (0x2, "O_RDWR") (by decide)
  refine ⟨fun entries hperm => ?_, rfl, List.sorted_insertionSort _ _, flagStrings_nodup f,
    htab, hro, ?_, ?_, fun h1 h2 => ⟨hwo.mpr h1, hrw.mpr h2⟩, by decide⟩
  · unfold OpenFlag.String OpenFlag.stringIn
    rw [flagStrings_perm entries f hperm]
  · intro name hname
    rcases (mem_flagStrings f name).mp hname with ⟨v, hmem, hv⟩ | ⟨h, _⟩
    · simp only [openFlagValueMap, List.mem_cons, List.mem_singleton, List.not_mem_nil,
        or_false, Prod.mk.injEq] at hmem
      rcases hmem with ⟨rfl, rfl⟩ | ⟨rfl, rfl⟩ | ⟨rfl, rfl⟩ | ⟨rfl, rfl⟩ | ⟨rfl, rfl⟩ | ⟨rfl, rfl⟩
      · exact Or.inr (Or.inl ⟨0x1, by decide⟩)
      · exact Or.inr (Or.inl ⟨0x2, by decide⟩)
      · exact Or.inr (Or.inl ⟨0x80000, by decide⟩)
      · exact Or.inr (Or.inl ⟨0x40, by decide⟩)
      · exact Or.inr (Or.inr hv)
      · exact Or.inr (Or.inl ⟨0x800, by decide⟩)
    · exact Or.inl h
  · by_cases h1 : intAnd f 0x1 = 0x1
    · exact ⟨"O_WRONLY", by decide, hwo.mpr h1⟩
    · by_cases h2 : intAnd f 0x2 = 0x2
      · exact ⟨"O_RDWR", by decide, hrw.mpr h2⟩
      · exact ⟨"O_RDONLY", by decide, hro.mpr ⟨h1, h2⟩⟩

/-! ### The notification-mode constants -/

/-- The loop of `AppendUvarint` ends by itself: beyond the iterations that the
value needs, more fuel changes nothing. -/
theorem appendUvarint_loop_fuel (fuel : Nat) : ∀ (k : Nat) (buf : List Byte) (x : Nat),
    x < 128 ^ (fuel + 1) →
    binary.AppendUvarint.loop (fuel + k) buf x = binary.AppendUvarint.loop fuel buf x := by
  induction fuel with
  | zero =>
    intro k buf x hx
    cases k with
    | zero => rfl
    | succ k =>
      have hx' : ¬ x ≥ 0x80 := by omega
      simp only [Nat.zero_add, binary.AppendUvarint.loop, hx', if_false]
  | succ n ih =>
    intro k buf x hx
    have hk : n + 1 + k = (n + k) + 1 := by omega
    rw [hk]
    simp only [binary.AppendUvarint.loop]
    split
    · apply ih
      rw [Nat.shiftRight_eq_div_pow]
      apply Nat.div_lt_of_lt_mul
      have : 128 ^ (n + 1 + 1) = 2 ^ 7 * 128 ^ (n + 1) := by ring
      omega
    · rfl

/-- Nine iterations are enough for every `uint64`. -/
theorem appendUvarint_fuel_enough (k : Nat) (buf : List Byte) (x : Nat) :
    binary.AppendUvarint.loop (9 + k) buf (x % 2 ^ 64) = binary.AppendUvarint buf x := by
  unfold binary.AppendUvarint
  apply appendUvarint_loop_fuel
  have : x % 2 ^ 64 < 2 ^ 64 := Nat.mod_lt _ (by decide)
  have h2 : (2 : Nat) ^ 64 ≤ 128 ^ (9 + 1) := by decide
  omega

/-- The generator writes a value below 64 as the single byte of its double. -/
theorem appendVarint_small (buf : List Byte) (n : Nat) (h : n < 64) :
    binary.AppendVarint buf (n : Int) = buf ++ [byteOf (2 * n)] := by
  have h1 : toUintptr (n : Int) = n := by unfold toUintptr; omega
  have h2 : ¬ ((n : Int) < 0) := by omega
  have h3 : (n <<< 1) % 2 ^ 64 = 2 * n := by
    rw [Nat.shiftLeft_eq]; omega
  have h4 : ¬ (2 * n ≥ 0x80) := by omega
  have h5 : 2 * n % 2 ^ 64 = 2 * n := by omega
  unfold binary.AppendVarint
  simp only [h1, h2, if_false, h3]
  unfold binary.AppendUvarint
  rw [h5, show (9 : Nat) = 8 + 1 from rfl, binary.AppendUvarint.loop, if_neg h4]

/-- Decoding a single byte below 128 gives its value and the length 1. -/
theorem uvarint_small (m : Nat) (rest : List Byte) (h : m < 128) :
    binary.Uvarint (byteOf m :: rest) = (m, 1) := by
  have h1 : (byteOf m).val = m := by unfold byteOf; simp; omega
  have h2 : (0 ||| (m <<< 0) % 2 ^ 64) = m := by
    rw [Nat.shiftLeft_eq, Nat.zero_or]; omega
  simp only [binary.Uvarint, binary.Uvarint.loop, binary.MaxVarintLen64, h1]
  simp [h]
  omega

/-- For values below 64, `init` stores the double of each value that the
generator wrote. -/
theorem init_doubles_small (a b : Nat) (ha : a < 64) (hb : b < 64) :
    init (notifyValues.main (a : Int) (b : Int)) = .ok (2 * (a : Int), 2 * (b : Int)) := by
  have hmain : notifyValues.main (a : Int) (b : Int) = [byteOf (2 * a), byteOf (2 * b)] := by
    simp [notifyValues.main, appendVarint_small, ha, hb]
  have hint : ∀ n : Nat, n < 64 → toInt (2 * n) = 2 * (n : Int) := by
    intro n hn
    unfold toInt
    have : 2 * n % 2 ^ 64 = 2 * n := by omega
    simp only [this]
    split
    · push_cast; ring
    · omega
  have hsa : init.step [byteOf (2 * a), byteOf (2 * b)] =
      .ok ([byteOf (2 * b)], 2 * (a : Int)) := by
    simp [init.step, uvarint_small (2 * a) [byteOf (2 * b)] (by omega), hint a ha]
  have hsb : init.step [byteOf (2 * b)] = .ok ([], 2 * (b : Int)) := by
    simp [init.step, uvarint_small (2 * b) [] (by omega), hint b hb]
  rw [hmain]
  simp only [init, hsa, hsb]

/-- C19 (failing input): for the platform values `SIGEV_NONE = 1` and
`SIGEV_SIGNAL = 0` the generator writes the bytes 2, 0 (the signed, zigzag
form) and `init`, which reads them as unsigned varints, sets `NotifyNone` to
2 and `NotifySignal` to 0. -/
theorem init_decodes_double_of_sigev_none :
    notifyValues.main 1 0 = [2, 0] ∧
    init (notifyValues.main 1 0) = .ok (2, 0) ∧
    init (notifyValues.main 1 0) ≠ .ok (1, 0) := by
  refine ⟨by decide, rfl, ?_⟩
  intro h
  have h' : init (notifyValues.main 1 0) = .ok (2, 0) := rfl
  rw [h'] at h
  simp at h
